import Mathlib

/-!
# Packet-header codecs of `libol/protocol.go`

A shallow embedding of the Ethernet, 802.1Q, ARP, IPv4, TCP and UDP header
codecs, followed by theorems about them.

Conventions of the embedding

* Go's fixed-width unsigned integers (`uint8`, `uint16`, `uint32`) are natural
  numbers; every operation that can leave the width is reduced modulo `2^w`
  at the place where Go truncates.  `int` is `Int`.
* A `[]byte` is a `Slice`: the backing storage from the slice's first element
  up to its capacity, together with its length.  Slicing is checked against
  the capacity and indexing against the length, as Go does.
* A method with a pointer receiver takes the receiver's value and returns the
  updated value next to its Go result.
* Code that may panic at run time returns `Run`.
-/

set_option maxRecDepth 8000

namespace Libol

/-! ## Run-time model -/

/-- Outcome of running a piece of Go code: it returns normally with a value,
or it panics (index or slice bounds out of range). -/
inductive Run (α : Type) where
  | ok (val : α) : Run α
  | panic : Run α
  deriving DecidableEq, Repr

/-- Sequencing: a panic aborts everything that follows. -/
def Run.bind {α β : Type} (x : Run α) (f : α → Run β) : Run β :=
  match x with
  | .ok a => f a
  | .panic => .panic

instance : Monad Run where
  pure := Run.ok
  bind := Run.bind

/-- A Go `[]byte`.  `arr` holds the elements from the first element of the
slice up to its capacity, `len` is the length of the slice. -/
structure Slice where
  arr : List Nat
  len : Nat
  deriving DecidableEq, Repr

namespace Slice

/-- The `nil` slice: length and capacity zero. -/
def nil : Slice := ⟨[], 0⟩

/-- Go `make([]byte, n)`: `n` zero bytes, capacity `n`. -/
def make (n : Nat) : Slice := ⟨List.replicate n 0, n⟩

/-- A slice holding exactly the given bytes (capacity = length). -/
def ofList (l : List Nat) : Slice := ⟨l, l.length⟩

/-- Go `cap(s)`. -/
def cap (s : Slice) : Nat := s.arr.length

/-- The element `i` of the storage; for `i < len(s)` it is the byte `s[i]`. -/
def byte (s : Slice) (i : Nat) : Nat := s.arr.getD i 0

/-- The bytes of the slice, `s[0] .. s[len(s)-1]`. -/
def toList (s : Slice) : List Nat := s.arr.take s.len

/-- A well-formed byte slice: the length does not exceed the capacity and
every stored element is a byte. -/
def WF (s : Slice) : Prop := s.len ≤ s.arr.length ∧ ∀ x ∈ s.arr, x < 256

instance (s : Slice) : Decidable s.WF := by unfold WF; infer_instance

/-- Go `s[i]` (read): panics unless `i < len(s)`. -/
def index (s : Slice) (i : Nat) : Run Nat :=
  if i < s.len then .ok (s.arr.getD i 0) else .panic

/-- Go `s[lo:hi]`: panics unless `lo ≤ hi ≤ cap(s)`. -/
def slice (s : Slice) (lo hi : Nat) : Run Slice :=
  if lo ≤ hi ∧ hi ≤ s.cap then .ok ⟨s.arr.drop lo, hi - lo⟩ else .panic

/-- Go `s[:hi]` with `hi` of type `int`: panics unless `0 ≤ hi ≤ cap(s)`. -/
def sliceTo (s : Slice) (hi : Int) : Run Slice :=
  if 0 ≤ hi then s.slice 0 hi.toNat else .panic

/-- Go `s[i] = v`: panics unless `i < len(s)`. -/
def setIndex (s : Slice) (i v : Nat) : Run Slice :=
  if i < s.len then .ok ⟨s.arr.set i v, s.len⟩ else .panic

/-- Go `copy(s[lo:hi], src)`: the sub-slice shares the storage of `s`, so
the first `min (hi - lo) len(src)` bytes of `src` are written into `s`
starting at `lo`.  Panics when `s[lo:hi]` does.  (Where `src` is itself a
slice expression, a caller evaluates it before calling `copyInto`; the two
operands can only fail by panicking, so their order does not show.) -/
def copyInto (s : Slice) (lo hi : Nat) (src : Slice) : Run Slice :=
  if lo ≤ hi ∧ hi ≤ s.cap then
    let n := min (hi - lo) src.len
    .ok ⟨s.arr.take lo ++ (src.arr.take n ++ s.arr.drop (lo + n)), s.len⟩
  else .panic

end Slice

/-- Go `binary.BigEndian.Uint16(b)`:
`_ = b[1]; return uint16(b[1]) | uint16(b[0])<<8`. -/
def Uint16 (b : Slice) : Run Nat := do
  let b1 ← b.index 1
  let b0 ← b.index 0
  pure (b1 ||| (b0 <<< 8) % 65536)

/-- Go `binary.BigEndian.Uint32(b)`: `_ = b[3]; return uint32(b[3]) |
uint32(b[2])<<8 | uint32(b[1])<<16 | uint32(b[0])<<24`. -/
def Uint32 (b : Slice) : Run Nat := do
  let b3 ← b.index 3
  let b2 ← b.index 2
  let b1 ← b.index 1
  let b0 ← b.index 0
  pure (b3 ||| (b2 <<< 8) % 4294967296 ||| (b1 <<< 16) % 4294967296
    ||| (b0 <<< 24) % 4294967296)

/-- Go `binary.BigEndian.PutUint16(s[lo:hi], v)`:
`_ = b[1]; b[0] = byte(v >> 8); b[1] = byte(v)` on the sub-slice
`b = s[lo:hi]`, which shares the storage of `s`. -/
def PutUint16 (s : Slice) (lo hi : Nat) (v : Nat) : Run Slice :=
  if lo ≤ hi ∧ hi ≤ s.cap then
    if 1 < hi - lo then
      .ok ⟨(s.arr.set lo ((v >>> 8) % 256)).set (lo + 1) (v % 256), s.len⟩
    else .panic
  else .panic

/-- Go `binary.BigEndian.PutUint32(s[lo:hi], v)`: `_ = b[3];
b[0] = byte(v >> 24); b[1] = byte(v >> 16); b[2] = byte(v >> 8);
b[3] = byte(v)` on the sub-slice `b = s[lo:hi]`. -/
def PutUint32 (s : Slice) (lo hi : Nat) (v : Nat) : Run Slice :=
  if lo ≤ hi ∧ hi ≤ s.cap then
    if 3 < hi - lo then
      .ok ⟨(((s.arr.set lo ((v >>> 24) % 256)).set (lo + 1) ((v >>> 16) % 256)).set
        (lo + 2) ((v >>> 8) % 256)).set (lo + 3) (v % 256), s.len⟩
    else .panic
  else .panic

/-- A Go `error` value built by `NewErr`: the format string and its
arguments. -/
structure GoError where
  format : String
  args : List Int
  deriving DecidableEq, Repr

/-- Modelled from the spec: `NewErr` is declared outside the two source files;
the decoders call it as `NewErr(format, args...)` to build the (non-nil) error
they return.  The model keeps the format string and the arguments. -/
def NewErr (format : String) (args : List Int) : GoError := ⟨format, args⟩

/-! ## Constants -/

def ETHPARP : Nat := 0x0806
def ETHPIP4 : Nat := 0x0800
def ETHPIP6 : Nat := 0x86DD
def ETHPVLAN : Nat := 0x8100

def ZEROED : Slice := Slice.ofList [0x00, 0x00, 0x00, 0x00, 0x00, 0x00]
def BROADED : Slice := Slice.ofList [0xff, 0xff, 0xff, 0xff, 0xff, 0xff]
def DEFAULTED : Slice := Slice.ofList [0x00, 0x16, 0x3e, 0x02, 0x56, 0x23]

def ARP_REQUEST : Nat := 1
def ARP_REPLY : Nat := 2
def ARPHRD_NETROM : Nat := 0
def ARPHRD_ETHER : Nat := 1
def ARPHRD_EETHER : Nat := 2

def IPV4_VER : Nat := 0x04
def IPV4_LEN : Nat := 20
def TCP_LEN : Nat := 20
def UDP_LEN : Nat := 8

/-! ## Ethernet -/

structure Ether where
  Dst : Slice
  Src : Slice
  /-- Go field `Type` (a reserved word here). -/
  EthType : Nat
  Len : Int
  deriving DecidableEq, Repr

def NewEther (t : Nat) : Ether :=
  { EthType := t, Src := ZEROED, Dst := ZEROED, Len := 14 }

def Ether.Decode (e : Ether) (frame : Slice) : Run (Ether × Option GoError) :=
  if frame.len < 14 then
    .ok (e, some (NewErr "Ether.Decode too small header: %d" [frame.len]))
  else do
    let dst ← frame.slice 0 6
    let e := { e with Dst := dst }
    let src ← frame.slice 6 12
    let e := { e with Src := src }
    let ty ← (do let s ← frame.slice 12 14; Uint16 s)
    let e := { e with EthType := ty }
    let e := { e with Len := 14 }
    pure (e, none)

def NewEtherFromFrame (frame : Slice) : Run (Ether × Option GoError) :=
  Ether.Decode { Dst := Slice.nil, Src := Slice.nil, EthType := 0, Len := 14 } frame

def Ether.Encode (e : Ether) : Run Slice := do
  let buffer := Slice.make 14
  let buffer ← buffer.copyInto 0 6 e.Dst
  let buffer ← buffer.copyInto 6 12 e.Src
  let buffer ← PutUint16 buffer 12 14 e.EthType
  buffer.slice 0 14

def Ether.IsVlan (e : Ether) : Bool := e.EthType == ETHPVLAN
def Ether.IsArp (e : Ether) : Bool := e.EthType == ETHPARP
def Ether.IsIP4 (e : Ether) : Bool := e.EthType == ETHPIP4

/-! ## 802.1Q VLAN tag -/

structure Vlan where
  Tci : Nat
  Vid : Nat
  Pro : Nat
  Len : Int
  deriving DecidableEq, Repr

def NewVlan (tci vid : Nat) : Vlan :=
  { Tci := tci, Vid := vid, Pro := 0, Len := 4 }

def Vlan.Decode (n : Vlan) (frame : Slice) : Run (Vlan × Option GoError) :=
  if frame.len < 4 then
    .ok (n, some (NewErr "Vlan.Decode: too small header" []))
  else do
    let v ← (do let s ← frame.slice 0 2; Uint16 s)
    let n := { n with Tci := v >>> 12 }
    let n := { n with Vid := 0x0fff &&& v }
    let pro ← (do let s ← frame.slice 2 4; Uint16 s)
    let n := { n with Pro := pro }
    pure (n, none)

def NewVlanFromFrame (frame : Slice) : Run (Vlan × Option GoError) :=
  Vlan.Decode { Tci := 0, Vid := 0, Pro := 0, Len := 4 } frame

def Vlan.Encode (n : Vlan) : Run Slice := do
  let buffer := Slice.make 16
  let v := (n.Tci <<< 12) % 65536 ||| n.Vid
  let buffer ← PutUint16 buffer 0 2 v
  let buffer ← PutUint16 buffer 2 4 n.Pro
  buffer.slice 0 4

/-! ## ARP -/

structure Arp where
  HrdCode : Nat
  ProCode : Nat
  HrdLen : Nat
  ProLen : Nat
  OpCode : Nat
  SHwAddr : Slice
  SIpAddr : Slice
  THwAddr : Slice
  TIpAddr : Slice
  Len : Int
  deriving DecidableEq, Repr

def NewArp : Arp :=
  { HrdCode := ARPHRD_ETHER, ProCode := ETHPIP4, HrdLen := 6, ProLen := 4,
    OpCode := ARP_REQUEST, SHwAddr := Slice.nil, SIpAddr := Slice.nil,
    THwAddr := Slice.nil, TIpAddr := Slice.nil, Len := 0 }

/-- The running offset `p` is a `uint8`, and so is the bound
`p+2*(a.HrdLen+a.ProLen)`: every sum and product is taken modulo 256. -/
def Arp.Decode (a : Arp) (frame : Slice) : Run (Arp × Option GoError) :=
  if frame.len < 8 then
    .ok (a, some (NewErr "Arp.Decode: too small header: %d" [frame.len]))
  else do
    let hrdCode ← (do let s ← frame.slice 0 2; Uint16 s)
    let a := { a with HrdCode := hrdCode }
    let proCode ← (do let s ← frame.slice 2 4; Uint16 s)
    let a := { a with ProCode := proCode }
    let hrdLen ← frame.index 4
    let a := { a with HrdLen := hrdLen }
    let proLen ← frame.index 5
    let a := { a with ProLen := proLen }
    let opCode ← (do let s ← frame.slice 6 8; Uint16 s)
    let a := { a with OpCode := opCode }
    let p := 8
    if frame.len < (p + (2 * ((a.HrdLen + a.ProLen) % 256)) % 256) % 256 then
      pure (a, some (NewErr "Arp.Decode: too small frame: %d" [frame.len]))
    else do
      let sHw ← frame.slice p ((p + a.HrdLen) % 256)
      let a := { a with SHwAddr := sHw }
      let p := (p + a.HrdLen) % 256
      let sIp ← frame.slice p ((p + a.ProLen) % 256)
      let a := { a with SIpAddr := sIp }
      let p := (p + a.ProLen) % 256
      let tHw ← frame.slice p ((p + a.HrdLen) % 256)
      let a := { a with THwAddr := tHw }
      let p := (p + a.HrdLen) % 256
      let tIp ← frame.slice p ((p + a.ProLen) % 256)
      let a := { a with TIpAddr := tIp }
      let p := (p + a.ProLen) % 256
      let a := { a with Len := p }
      pure (a, none)

def NewArpFromFrame (frame : Slice) : Run (Arp × Option GoError) :=
  Arp.Decode
    { HrdCode := 0, ProCode := 0, HrdLen := 0, ProLen := 0, OpCode := 0,
      SHwAddr := Slice.nil, SIpAddr := Slice.nil, THwAddr := Slice.nil,
      TIpAddr := Slice.nil, Len := 0 } frame

/-- The method `Encode` stores the encoded length in the receiver, so the updated
receiver is returned next to the bytes. -/
def Arp.Encode (a : Arp) : Run (Arp × Slice) := do
  let buffer := Slice.make 1024
  let buffer ← PutUint16 buffer 0 2 a.HrdCode
  let buffer ← PutUint16 buffer 2 4 a.ProCode
  let buffer ← buffer.setIndex 4 (a.HrdLen % 256)
  let buffer ← buffer.setIndex 5 (a.ProLen % 256)
  let buffer ← PutUint16 buffer 6 8 a.OpCode
  let p := 8
  let src ← a.SHwAddr.slice 0 a.HrdLen
  let buffer ← buffer.copyInto p ((p + a.HrdLen) % 256) src
  let p := (p + a.HrdLen) % 256
  let src ← a.SIpAddr.slice 0 a.ProLen
  let buffer ← buffer.copyInto p ((p + a.ProLen) % 256) src
  let p := (p + a.ProLen) % 256
  let src ← a.THwAddr.slice 0 a.HrdLen
  let buffer ← buffer.copyInto p ((p + a.HrdLen) % 256) src
  let p := (p + a.HrdLen) % 256
  let src ← a.TIpAddr.slice 0 a.ProLen
  let buffer ← buffer.copyInto p ((p + a.ProLen) % 256) src
  let p := (p + a.ProLen) % 256
  let a := { a with Len := p }
  let out ← buffer.slice 0 p
  pure (a, out)

def Arp.IsIP4 (a : Arp) : Bool := a.ProCode == ETHPIP4

/-- The value `Arp.Decode` leaves in the receiver when it succeeds on `frame`:
the five header fields read big-endian from bytes 0-7, the four addresses as
consecutive sub-slices after the header, and the total length. -/
def Arp.decoded (frame : Slice) : Arp :=
  let h := frame.byte 4
  let p := frame.byte 5
  { HrdCode := frame.byte 0 * 256 + frame.byte 1,
    ProCode := frame.byte 2 * 256 + frame.byte 3,
    HrdLen := h,
    ProLen := p,
    OpCode := frame.byte 6 * 256 + frame.byte 7,
    SHwAddr := ⟨frame.arr.drop 8, h⟩,
    SIpAddr := ⟨frame.arr.drop (8 + h), p⟩,
    THwAddr := ⟨frame.arr.drop (8 + h + p), h⟩,
    TIpAddr := ⟨frame.arr.drop (8 + h + p + h), p⟩,
    Len := ((8 + 2 * (h + p) : Nat) : Int) }

/-! ## IPv4 -/

structure Ipv4 where
  Version : Nat
  HeaderLen : Nat
  ToS : Nat
  TotalLen : Nat
  Identifier : Nat
  Flag : Nat
  Offset : Nat
  ToL : Nat
  Protocol : Nat
  HeaderChecksum : Nat
  Source : Slice
  Destination : Slice
  Options : Nat
  Len : Int
  deriving DecidableEq, Repr

def NewIpv4 : Ipv4 :=
  { Version := 0x04, HeaderLen := 0x05, ToS := 0, TotalLen := 0,
    Identifier := 0, Flag := 0, Offset := 0, ToL := 0xff, Protocol := 0,
    HeaderChecksum := 0, Source := Slice.nil, Destination := Slice.nil,
    Options := 0, Len := IPV4_LEN }

def Ipv4.IsIP4 (i : Ipv4) : Bool := i.Version == IPV4_VER

def Ipv4.Decode (i : Ipv4) (frame : Slice) : Run (Ipv4 × Option GoError) :=
  if frame.len < IPV4_LEN then
    .ok (i, some (NewErr "Ipv4.Decode: too small header: %d" [frame.len]))
  else do
    let h ← frame.index 0
    let i := { i with Version := h >>> 4 }
    let i := { i with HeaderLen := h &&& 0x0f }
    let tos ← frame.index 1
    let i := { i with ToS := tos }
    let totalLen ← (do let s ← frame.slice 2 4; Uint16 s)
    let i := { i with TotalLen := totalLen }
    let identifier ← (do let s ← frame.slice 4 6; Uint16 s)
    let i := { i with Identifier := identifier }
    let f ← (do let s ← frame.slice 6 8; Uint16 s)
    let i := { i with Offset := f &&& 0x1fff }
    let i := { i with Flag := f >>> 13 }
    let tol ← frame.index 8
    let i := { i with ToL := tol }
    let protocol ← frame.index 9
    let i := { i with Protocol := protocol }
    let checksum ← (do let s ← frame.slice 10 12; Uint16 s)
    let i := { i with HeaderChecksum := checksum }
    if !i.IsIP4 then
      pure (i, some (NewErr "Ipv4.Decode: not right ipv4 version: 0x%x" [i.Version]))
    else do
      let source ← frame.slice 12 16
      let i := { i with Source := source }
      let destination ← frame.slice 16 20
      let i := { i with Destination := destination }
      pure (i, none)

def NewIpv4FromFrame (frame : Slice) : Run (Ipv4 × Option GoError) :=
  Ipv4.Decode NewIpv4 frame

def Ipv4.Encode (i : Ipv4) : Run Slice := do
  let buffer := Slice.make 32
  let h := ((i.Version <<< 4) % 256 ||| i.HeaderLen) % 256
  let buffer ← buffer.setIndex 0 h
  let buffer ← buffer.setIndex 1 i.ToS
  let buffer ← PutUint16 buffer 2 4 i.TotalLen
  let buffer ← PutUint16 buffer 4 6 i.Identifier
  let f := ((i.Flag <<< 13) % 65536 ||| i.Offset) % 65536
  let buffer ← PutUint16 buffer 6 8 f
  let buffer ← buffer.setIndex 8 i.ToL
  let buffer ← buffer.setIndex 9 i.Protocol
  let buffer ← PutUint16 buffer 10 12 i.HeaderChecksum
  let src ← i.Source.slice 0 4
  let buffer ← buffer.copyInto 12 16 src
  let src ← i.Destination.slice 0 4
  let buffer ← buffer.copyInto 16 20 src
  buffer.sliceTo i.Len

/-- The scalar fields of an `Ipv4` value fit their Go types (`uint8`,
`uint16`, `uint32`) and the two addresses are well-formed byte slices. -/
def Ipv4.Typed (i : Ipv4) : Prop :=
  i.Version < 256 ∧ i.HeaderLen < 256 ∧ i.ToS < 256 ∧ i.TotalLen < 65536 ∧
  i.Identifier < 65536 ∧ i.Flag < 65536 ∧ i.Offset < 65536 ∧ i.ToL < 256 ∧
  i.Protocol < 256 ∧ i.HeaderChecksum < 65536 ∧ i.Source.WF ∧ i.Destination.WF ∧
  i.Options < 4294967296

instance (i : Ipv4) : Decidable i.Typed := by unfold Ipv4.Typed; infer_instance

/-! ## TCP -/

structure Tcp where
  Source : Nat
  Destination : Nat
  Sequence : Nat
  Acknowledgment : Nat
  DataOffset : Nat
  ControlBits : Nat
  Window : Nat
  Checksum : Nat
  UrgentPointer : Nat
  Options : Slice
  Padding : Slice
  Len : Int
  deriving DecidableEq, Repr

def NewTcp : Tcp :=
  { Source := 0, Destination := 0, Sequence := 0, Acknowledgment := 0,
    DataOffset := 0, ControlBits := 0, Window := 0, Checksum := 0,
    UrgentPointer := 0, Options := Slice.nil, Padding := Slice.nil,
    Len := TCP_LEN }

def Tcp.Decode (t : Tcp) (frame : Slice) : Run (Tcp × Option GoError) :=
  if frame.len < TCP_LEN then
    .ok (t, some (NewErr "Tcp.Decode: too small header: %d" [frame.len]))
  else do
    let source ← (do let s ← frame.slice 0 2; Uint16 s)
    let t := { t with Source := source }
    let destination ← (do let s ← frame.slice 2 4; Uint16 s)
    let t := { t with Destination := destination }
    let sequence ← (do let s ← frame.slice 4 8; Uint32 s)
    let t := { t with Sequence := sequence }
    let acknowledgment ← (do let s ← frame.slice 8 12; Uint32 s)
    let t := { t with Acknowledgment := acknowledgment }
    let dataOffset ← frame.index 12
    let t := { t with DataOffset := dataOffset }
    let controlBits ← frame.index 13
    let t := { t with ControlBits := controlBits }
    let window ← (do let s ← frame.slice 14 16; Uint16 s)
    let t := { t with Window := window }
    let checksum ← (do let s ← frame.slice 16 18; Uint16 s)
    let t := { t with Checksum := checksum }
    let urgentPointer ← (do let s ← frame.slice 18 20; Uint16 s)
    let t := { t with UrgentPointer := urgentPointer }
    pure (t, none)

def NewTcpFromFrame (frame : Slice) : Run (Tcp × Option GoError) :=
  Tcp.Decode NewTcp frame

def Tcp.Encode (t : Tcp) : Run Slice := do
  let buffer := Slice.make 32
  let buffer ← PutUint16 buffer 0 2 t.Source
  let buffer ← PutUint16 buffer 2 4 t.Destination
  let buffer ← PutUint32 buffer 4 8 t.Sequence
  let buffer ← PutUint32 buffer 8 12 t.Acknowledgment
  let buffer ← buffer.setIndex 12 t.DataOffset
  let buffer ← buffer.setIndex 13 t.ControlBits
  let buffer ← PutUint16 buffer 14 16 t.Window
  let buffer ← PutUint16 buffer 16 18 t.Checksum
  let buffer ← PutUint16 buffer 18 20 t.UrgentPointer
  buffer.sliceTo t.Len

/-! ## UDP -/

structure Udp where
  Source : Nat
  Destination : Nat
  Length : Nat
  Checksum : Nat
  Len : Int
  deriving DecidableEq, Repr

def NewUdp : Udp :=
  { Source := 0, Destination := 0, Length := 0, Checksum := 0, Len := UDP_LEN }

def Udp.Decode (u : Udp) (frame : Slice) : Run (Udp × Option GoError) :=
  if frame.len < UDP_LEN then
    .ok (u, some (NewErr "Udp.Decode: too small header: %d" [frame.len]))
  else do
    let source ← (do let s ← frame.slice 0 2; Uint16 s)
    let u := { u with Source := source }
    let destination ← (do let s ← frame.slice 2 4; Uint16 s)
    let u := { u with Destination := destination }
    let length ← (do let s ← frame.slice 4 6; Uint16 s)
    let u := { u with Length := length }
    let checksum ← (do let s ← frame.slice 6 8; Uint16 s)
    let u := { u with Checksum := checksum }
    pure (u, none)

def NewUdpFromFrame (frame : Slice) : Run (Udp × Option GoError) :=
  Udp.Decode NewUdp frame

def Udp.Encode (u : Udp) : Run Slice := do
  let buffer := Slice.make 32
  let buffer ← PutUint16 buffer 0 2 u.Source
  let buffer ← PutUint16 buffer 2 4 u.Destination
  let buffer ← PutUint16 buffer 4 6 u.Length
  let buffer ← PutUint16 buffer 6 8 u.Checksum
  buffer.sliceTo u.Len

/-- The scalar fields of a `Tcp` value fit their Go types. -/
def Tcp.Typed (t : Tcp) : Prop :=
  t.Source < 65536 ∧ t.Destination < 65536 ∧ t.Sequence < 4294967296 ∧
  t.Acknowledgment < 4294967296 ∧ t.DataOffset < 256 ∧ t.ControlBits < 256 ∧
  t.Window < 65536 ∧ t.Checksum < 65536 ∧ t.UrgentPointer < 65536

instance (t : Tcp) : Decidable t.Typed := by unfold Tcp.Typed; infer_instance

/-- The scalar fields of a `Udp` value fit their Go types. -/
def Udp.Typed (u : Udp) : Prop :=
  u.Source < 65536 ∧ u.Destination < 65536 ∧ u.Length < 65536 ∧ u.Checksum < 65536

instance (u : Udp) : Decidable u.Typed := by unfold Udp.Typed; infer_instance

/-! ## Protocol names -/

def IPPROTO_ICMP : Nat := 0x01
def IPPROTO_IGMP : Nat := 0x02
def IPPROTO_IPIP : Nat := 0x04
def IPPROTO_TCP : Nat := 0x06
def IPPROTO_UDP : Nat := 0x11
def IPPROTO_ESP : Nat := 0x32
def IPPROTO_AH : Nat := 0x33
def IPPROTO_OSPF : Nat := 0x59
def IPPROTO_PIM : Nat := 0x67
def IPPROTO_VRRP : Nat := 0x70
def IPPROTO_ISIS : Nat := 0x7c

/-- Go `fmt.Sprintf("%02x", n)` for an unsigned integer: the lowercase
hexadecimal digits of `n`, padded with zeros on the left to width 2. -/
def Sprintf02x (n : Nat) : String :=
  let ds := Nat.toDigits 16 n
  String.mk (List.replicate (2 - ds.length) '0' ++ ds)

/-- The `switch` tries the cases in the order of the source. -/
def IpProto2Str (proto : Nat) : String :=
  if proto = IPPROTO_ICMP then "icmp"
  else if proto = IPPROTO_IGMP then "igmp"
  else if proto = IPPROTO_IPIP then "ipip"
  else if proto = IPPROTO_ESP then "esp"
  else if proto = IPPROTO_AH then "ah"
  else if proto = IPPROTO_OSPF then "ospf"
  else if proto = IPPROTO_ISIS then "isis"
  else if proto = IPPROTO_UDP then "udp"
  else if proto = IPPROTO_TCP then "tcp"
  else if proto = IPPROTO_PIM then "pim"
  else if proto = IPPROTO_VRRP then "vrrp"
  else Sprintf02x proto

/-! ## Auxiliary lemmas -/

@[simp] theorem Run.ok_bind {α β : Type} (a : α) (f : α → Run β) :
    (Run.ok a >>= f) = f a := rfl

@[simp] theorem Run.panic_bind {α β : Type} (f : α → Run β) :
    ((Run.panic : Run α) >>= f) = Run.panic := rfl

@[simp] theorem Run.pure_eq {α : Type} (a : α) : (pure a : Run α) = Run.ok a := rfl

/-- Joining a value shifted left by `k` with a `k`-bit value is addition. -/
theorem shiftLeft_or (a b k : Nat) (hb : b < 2 ^ k) :
    a <<< k ||| b = a * 2 ^ k + b := by
  rw [Nat.shiftLeft_eq, Nat.mul_comm, Nat.mul_add_lt_is_or hb]

/-- The same, with the operands of the join exchanged. -/
theorem or_shiftLeft (a b k : Nat) (hb : b < 2 ^ k) :
    b ||| a <<< k = a * 2 ^ k + b := by
  rw [Nat.or_comm, shiftLeft_or a b k hb]

/-- Masking with `2^k - 1` on the left is the remainder modulo `2^k`. -/
theorem mask_and (v k : Nat) : (2 ^ k - 1) &&& v = v % 2 ^ k := by
  rw [Nat.and_comm, Nat.and_pow_two_sub_one_eq_mod]

/-- Two bytes joined big-endian, as `binary.BigEndian.Uint16` computes them. -/
theorem be16 (a b : Nat) (ha : a < 256) (hb : b < 256) :
    b ||| (a <<< 8) % 65536 = a * 256 + b := by
  have h : a <<< 8 = a * 256 := by simp [Nat.shiftLeft_eq]
  have h2 := or_shiftLeft a b 8 (by simpa using hb)
  rw [Nat.mod_eq_of_lt (by omega), h2]; norm_num

/-- A list with at least 4 elements starts with 4 explicit elements. -/
theorem exists_prefix4 (l : List Nat) (h : 4 ≤ l.length) :
    ∃ b0 b1 b2 b3 t, l = b0 :: b1 :: b2 :: b3 :: t := by
  rcases l with _ | ⟨b0, _ | ⟨b1, _ | ⟨b2, _ | ⟨b3, t⟩⟩⟩⟩
  all_goals first
    | exact ⟨_, _, _, _, _, rfl⟩
    | (simp at h; try omega)

/-- A list with at least 8 elements starts with 8 explicit elements. -/
theorem exists_prefix8 (l : List Nat) (h : 8 ≤ l.length) :
    ∃ b0 b1 b2 b3 b4 b5 b6 b7 t, l = b0 :: b1 :: b2 :: b3 :: b4 :: b5 :: b6 :: b7 :: t := by
  obtain ⟨b0, b1, b2, b3, t, rfl⟩ := exists_prefix4 l (by omega)
  obtain ⟨b4, b5, b6, b7, t, rfl⟩ := exists_prefix4 t (by simp at h; omega)
  exact ⟨b0, b1, b2, b3, b4, b5, b6, b7, t, rfl⟩

/-- A list with at least 20 elements starts with 20 explicit elements. -/
theorem exists_prefix20 (l : List Nat) (h : 20 ≤ l.length) :
    ∃ b0 b1 b2 b3 b4 b5 b6 b7 b8 b9 b10 b11 b12 b13 b14 b15 b16 b17 b18 b19 t,
      l = b0 :: b1 :: b2 :: b3 :: b4 :: b5 :: b6 :: b7 :: b8 :: b9 :: b10 :: b11 :: b12 ::
        b13 :: b14 :: b15 :: b16 :: b17 :: b18 :: b19 :: t := by
  obtain ⟨b0, b1, b2, b3, b4, b5, b6, b7, t, rfl⟩ := exists_prefix8 l (by omega)
  obtain ⟨b8, b9, b10, b11, b12, b13, b14, b15, t, rfl⟩ :=
    exists_prefix8 t (by simp at h; omega)
  obtain ⟨b16, b17, b18, b19, t, rfl⟩ := exists_prefix4 t (by simp at h; omega)
  exact ⟨b0, b1, b2, b3, b4, b5, b6, b7, b8, b9, b10, b11, b12, b13, b14, b15, b16, b17,
    b18, b19, t, rfl⟩

/-- Writing a 16-bit value big-endian and reading it back. -/
theorem be16_put (v : Nat) (hv : v < 65536) :
    v % 256 ||| (v / 256 % 256) <<< 8 % 65536 = v := by
  rw [be16 _ _ (Nat.mod_lt _ (by norm_num)) (Nat.mod_lt _ (by norm_num))]
  omega

/-- The high byte written for two bytes read big-endian is the first byte. -/
theorem be16_hi (a b : Nat) (ha : a < 256) (hb : b < 256) :
    (a * 256 + b) / 256 % 256 = a := by
  omega

/-- The low byte written for two bytes read big-endian is the second byte. -/
theorem be16_lo (a b : Nat) (hb : b < 256) : (a * 256 + b) % 256 = b := by
  omega

/-- The mask `0x0fff` keeps the value modulo `2^12`. -/
theorem and_0fff (v : Nat) : 4095 &&& v = v % 4096 := by
  have h := mask_and v 12
  norm_num at h
  exact h

/-- The mask `0x1fff` keeps the value modulo `2^13`. -/
theorem and_1fff (v : Nat) : v &&& 8191 = v % 8192 := by
  have h := Nat.and_pow_two_sub_one_eq_mod v 13
  norm_num at h
  exact h

/-- The mask `0x0f` keeps the value modulo `2^4`. -/
theorem and_0f (v : Nat) : v &&& 15 = v % 16 := by
  have h := Nat.and_pow_two_sub_one_eq_mod v 4
  norm_num at h
  exact h

/-- Joining `hi << k` (truncated to `w` bits) with `lo` is `hi * 2^k + lo`
when `lo` has at most `k` bits and the sum fits `w` bits. -/
theorem shl_or_trunc (hi lo k w : Nat) (hlo : lo < 2 ^ k)
    (hfit : hi * 2 ^ k < 2 ^ w) : (hi <<< k) % 2 ^ w ||| lo = hi * 2 ^ k + lo := by
  rw [Nat.mod_eq_of_lt (by rw [Nat.shiftLeft_eq]; exact hfit), shiftLeft_or hi lo k hlo]

/-- The storage of `make([]byte, 16)` with its first four elements written out. -/
theorem replicate16 : List.replicate 16 0 = 0 :: 0 :: 0 :: 0 :: List.replicate 12 0 :=
  rfl

/-- The storage of `make([]byte, 32)` with its first twenty elements written
out. -/
theorem replicate32 : List.replicate 32 0 =
    0 :: 0 :: 0 :: 0 :: 0 :: 0 :: 0 :: 0 :: 0 :: 0 :: 0 :: 0 :: 0 :: 0 :: 0 :: 0 :: 0 :: 0 ::
      0 :: 0 :: List.replicate 12 0 :=
  rfl

/-- Sequencing distributes over a conditional. -/
theorem Run.ite_bind {α β : Type} (c : Prop) [Decidable c] (x y : Run α) (f : α → Run β) :
    ((if c then x else y) >>= f) = if c then x >>= f else y >>= f := by
  split <;> rfl

/-- A sub-range that lies within the first `len` elements does not depend on
the cut at `len`. -/
theorem take_drop_take (l : List Nat) (len lo n : Nat) (h : lo + n ≤ len) :
    ((l.take len).drop lo).take n = (l.drop lo).take n := by
  rw [List.drop_take, List.take_take, Nat.min_eq_left (by omega)]

/-- One `copy` step of an encoder that rebuilds `ref`: if the first `lo` bytes
of the buffer agree with `ref` and the source holds the next `n` bytes of
`ref`, then after `copy(buf[lo:lo+n], src)` the first `lo + n` bytes agree. -/
theorem Slice.copyInto_agrees (buf src : Slice) (ref : List Nat) (lo n : Nat)
    (hpre : buf.arr.take lo = ref.take lo) (hsrc : src.arr.take n = (ref.drop lo).take n)
    (hn : src.len = n) (hcap : lo + n ≤ buf.cap) (hsc : n ≤ src.arr.length) :
    ∃ buf', buf.copyInto lo (lo + n) src = .ok buf' ∧
      buf'.arr.take (lo + n) = ref.take (lo + n) ∧ buf'.cap = buf.cap ∧ buf'.len = buf.len := by
  have hc : lo ≤ lo + n ∧ lo + n ≤ buf.cap := ⟨by omega, hcap⟩
  have hcap' : lo + n ≤ buf.arr.length := hcap
  have hl : (List.take lo buf.arr).length = lo := by
    rw [List.length_take]; omega
  have hl2 : (List.take n src.arr).length = n := by
    rw [List.length_take]; omega
  refine ⟨⟨buf.arr.take lo ++ (src.arr.take n ++ buf.arr.drop (lo + n)), buf.len⟩, ?_, ?_, ?_, rfl⟩
  · rw [Slice.copyInto, if_pos hc]
    simp [hn]
  · show List.take (lo + n) (buf.arr.take lo ++ (src.arr.take n ++ buf.arr.drop (lo + n))) = _
    rw [← List.append_assoc, List.take_left' (by rw [List.length_append, hl, hl2]),
      List.take_add, hpre, hsrc]
  · show (buf.arr.take lo ++ (src.arr.take n ++ buf.arr.drop (lo + n))).length = buf.arr.length
    rw [List.length_append, List.length_append, hl, hl2, List.length_drop]
    omega

/-- The storage of `make([]byte, 1024)` with its first eight elements written
out. -/
theorem replicate1024 : List.replicate 1024 0 =
    0 :: 0 :: 0 :: 0 :: 0 :: 0 :: 0 :: 0 :: List.replicate 1016 0 :=
  rfl

/-- Characterisation of a successful `Arp.Decode` on a well-formed buffer: it
returns without error exactly when the buffer has its 8 header bytes, the total
length `8 + 2*(h + p)` stays below 256 (no step of the 8-bit offset wraps) and
fits the buffer; the receiver then holds `Arp.decoded frame`. -/
theorem Arp.Decode_eq_ok_iff (a r : Arp) (frame : Slice) (hwf : frame.WF) :
    Arp.Decode a frame = .ok (r, none) ↔
      8 ≤ frame.len ∧ 8 + 2 * (frame.byte 4 + frame.byte 5) < 256 ∧
      8 + 2 * (frame.byte 4 + frame.byte 5) ≤ frame.len ∧ r = Arp.decoded frame := by
  by_cases hshort : frame.len < 8
  · rw [Arp.Decode, if_pos hshort]
    simp
    omega
  · obtain ⟨arr, len⟩ := frame
    obtain ⟨hle, hb⟩ := hwf
    simp only at hle hb hshort
    obtain ⟨b0, b1, b2, b3, b4, b5, b6, b7, t, rfl⟩ := exists_prefix8 arr (by omega)
    have h0 : b0 < 256 := hb b0 (by simp)
    have h1 : b1 < 256 := hb b1 (by simp)
    have h2 : b2 < 256 := hb b2 (by simp)
    have h3 : b3 < 256 := hb b3 (by simp)
    have h4 : b4 < 256 := hb b4 (by simp)
    have h5 : b5 < 256 := hb b5 (by simp)
    have h6 : b6 < 256 := hb b6 (by simp)
    have h7 : b7 < 256 := hb b7 (by simp)
    have hl4 : 4 < len := by omega
    have hl5 : 5 < len := by omega
    have htl : len ≤ t.length + 8 := by simpa using hle
    by_cases hfit : 8 + 2 * (b4 + b5) < 256 ∧ 8 + 2 * (b4 + b5) ≤ len
    · obtain ⟨hf1, hf2⟩ := hfit
      have m1 : (8 + 2 * (b4 + b5)) % 256 = 8 + 2 * (b4 + b5) := Nat.mod_eq_of_lt hf1
      have m2 : (8 + b4) % 256 = 8 + b4 := Nat.mod_eq_of_lt (by omega)
      have m3 : (8 + b4 + b5) % 256 = 8 + b4 + b5 := Nat.mod_eq_of_lt (by omega)
      have m4 : (8 + b4 + b5 + b4) % 256 = 8 + b4 + b5 + b4 := Nat.mod_eq_of_lt (by omega)
      have m5 : (8 + b4 + b5 + b4 + b5) % 256 = 8 + b4 + b5 + b4 + b5 :=
        Nat.mod_eq_of_lt (by omega)
      simp [Arp.Decode, Arp.decoded, Slice.slice, Slice.cap, Slice.byte, Uint16, Slice.index,
        List.getD, hshort, hl4, hl5, Run.ite_bind, be16 _ _ h0 h1, be16 _ _ h2 h3,
        be16 _ _ h6 h7, m1, m2, m3, m4, m5]
      rw [if_neg (by omega), if_pos (by omega), if_pos (by omega), if_pos (by omega),
        if_pos (by omega)]
      have hL : ((8 : Int) + b4 + b5 + b4 + b5) % 256 = 8 + 2 * ((b4 : Int) + b5) := by omega
      simp [hL]
      constructor
      · intro h; exact ⟨by omega, hf1, hf2, h.symm⟩
      · intro h; exact h.2.2.2.symm
    · refine ⟨fun h => ?_, fun h => absurd ⟨h.2.1, h.2.2.1⟩ hfit⟩
      exfalso
      simp [Arp.Decode, Slice.slice, Slice.cap, Uint16, Slice.index,
        List.getD, hshort, hl4, hl5, Run.ite_bind] at h
      split_ifs at h <;> first | omega | simp at h

/-- A `copy` of bytes into a buffer of bytes leaves a buffer of bytes. -/
theorem Slice.copyInto_bytes (s src s' : Slice) (lo hi : Nat)
    (h : s.copyInto lo hi src = Run.ok s') (hs : ∀ x ∈ s.arr, x < 256)
    (hsrc : ∀ x ∈ src.arr, x < 256) : ∀ x ∈ s'.arr, x < 256 := by
  unfold Slice.copyInto at h
  split_ifs at h with hc
  injection h with h
  subst h
  intro x hx
  simp only [List.mem_append] at hx
  rcases hx with hx | hx | hx
  · exact hs x (List.mem_of_mem_take hx)
  · exact hsrc x (List.mem_of_mem_take hx)
  · exact hs x (List.mem_of_mem_drop hx)

/-- The encoder `Arp.Encode` rebuilds a reference byte string: when the total length
`8 + 2*(HrdLen + ProLen)` stays below 256, the 8 header bytes written by
`Encode` are the first 8 bytes of `ref`, and each address holds the bytes of
`ref` at its place, `Encode` returns the first `8 + 2*(HrdLen + ProLen)` bytes
of `ref` and stores that length in the receiver. -/
theorem Arp.Encode_rebuilds (a : Arp) (ref : List Nat)
    (hfit : 8 + 2 * (a.HrdLen + a.ProLen) < 256)
    (hhdr : ref.take 8 = [a.HrdCode / 256 % 256, a.HrdCode % 256, a.ProCode / 256 % 256,
      a.ProCode % 256, a.HrdLen, a.ProLen, a.OpCode / 256 % 256, a.OpCode % 256])
    (c1 : a.HrdLen ≤ a.SHwAddr.cap)
    (e1 : a.SHwAddr.arr.take a.HrdLen = (ref.drop 8).take a.HrdLen)
    (c2 : a.ProLen ≤ a.SIpAddr.cap)
    (e2 : a.SIpAddr.arr.take a.ProLen = (ref.drop (8 + a.HrdLen)).take a.ProLen)
    (c3 : a.HrdLen ≤ a.THwAddr.cap)
    (e3 : a.THwAddr.arr.take a.HrdLen = (ref.drop (8 + a.HrdLen + a.ProLen)).take a.HrdLen)
    (c4 : a.ProLen ≤ a.TIpAddr.cap)
    (e4 : a.TIpAddr.arr.take a.ProLen =
      (ref.drop (8 + a.HrdLen + a.ProLen + a.HrdLen)).take a.ProLen) :
    ∃ out, Arp.Encode a =
        .ok ({ a with Len := ((8 + 2 * (a.HrdLen + a.ProLen) : Nat) : Int) }, out) ∧
      out.len = 8 + 2 * (a.HrdLen + a.ProLen) ∧
      out.toList = ref.take (8 + 2 * (a.HrdLen + a.ProLen)) ∧
      out.cap = 1024 ∧
      ((∀ x ∈ a.SHwAddr.arr, x < 256) → (∀ x ∈ a.SIpAddr.arr, x < 256) →
        (∀ x ∈ a.THwAddr.arr, x < 256) → (∀ x ∈ a.TIpAddr.arr, x < 256) →
        ∀ x ∈ out.arr, x < 256) := by
  obtain ⟨hc, pc, hl, pl, op, s1, s2, s3, s4, ln⟩ := a
  simp only at hfit hhdr c1 e1 c2 e2 c3 e3 c4 e4
  simp only [Slice.cap] at c1 c2 c3 c4
  have hrep := replicate1024
  generalize hz : List.replicate 1016 0 = z at hrep
  have hzl : z.length = 1016 := by rw [← hz]; simp
  have hzb : ∀ x ∈ z, x < 256 := by
    intro x hx
    rw [← hz] at hx
    rw [(List.mem_replicate.mp hx).2]
    norm_num
  clear hz
  have m2 : (8 + hl) % 256 = 8 + hl := Nat.mod_eq_of_lt (by omega)
  have m3 : (8 + hl + pl) % 256 = 8 + hl + pl := Nat.mod_eq_of_lt (by omega)
  have m4 : (8 + hl + pl + hl) % 256 = 8 + hl + pl + hl := Nat.mod_eq_of_lt (by omega)
  have m5 : (8 + hl + pl + hl + pl) % 256 = 8 + hl + pl + hl + pl :=
    Nat.mod_eq_of_lt (by omega)
  have mh : hl % 256 = hl := Nat.mod_eq_of_lt (by omega)
  have mp : pl % 256 = pl := Nat.mod_eq_of_lt (by omega)
  have sl1 : s1.slice 0 hl = .ok ⟨s1.arr, hl⟩ := by simp [Slice.slice, Slice.cap, c1]
  have sl2 : s2.slice 0 pl = .ok ⟨s2.arr, pl⟩ := by simp [Slice.slice, Slice.cap, c2]
  have sl3 : s3.slice 0 hl = .ok ⟨s3.arr, hl⟩ := by simp [Slice.slice, Slice.cap, c3]
  have sl4 : s4.slice 0 pl = .ok ⟨s4.arr, pl⟩ := by simp [Slice.slice, Slice.cap, c4]
  obtain ⟨buf1, q1, p1, k1, l1⟩ := Slice.copyInto_agrees
    ⟨hc / 256 % 256 :: hc % 256 :: pc / 256 % 256 :: pc % 256 :: hl :: pl :: op / 256 % 256 ::
      op % 256 :: z, 1024⟩ ⟨s1.arr, hl⟩ ref 8 hl (by simp [hhdr]) e1 rfl
    (by simp [Slice.cap, hzl]; omega) c1
  obtain ⟨buf2, q2, p2, k2, l2⟩ := Slice.copyInto_agrees buf1 ⟨s2.arr, pl⟩ ref (8 + hl) pl
    p1 e2 rfl (by rw [k1]; simp [Slice.cap, hzl]; omega) c2
  obtain ⟨buf3, q3, p3, k3, l3⟩ := Slice.copyInto_agrees buf2 ⟨s3.arr, hl⟩ ref (8 + hl + pl) hl
    p2 e3 rfl (by rw [k2, k1]; simp [Slice.cap, hzl]; omega) c3
  obtain ⟨buf4, q4, p4, k4, l4⟩ := Slice.copyInto_agrees buf3 ⟨s4.arr, pl⟩ ref
    (8 + hl + pl + hl) pl p3 e4 rfl (by rw [k3, k2, k1]; simp [Slice.cap, hzl]; omega) c4
  have k : buf4.cap = 1024 := by rw [k4, k3, k2, k1]; simp [Slice.cap, hzl]
  have so : buf4.slice 0 (8 + hl + pl + hl + pl) = .ok ⟨buf4.arr, 8 + hl + pl + hl + pl⟩ := by
    have : 8 + hl + pl + hl + pl ≤ buf4.cap := by omega
    simp [Slice.slice, this]
  have hsum : 8 + 2 * (hl + pl) = 8 + hl + pl + hl + pl := by omega
  refine ⟨⟨buf4.arr, 8 + hl + pl + hl + pl⟩, ?_, ?_, ?_, k, ?_⟩
  · simp [Arp.Encode, PutUint16, Slice.setIndex, Slice.make, Slice.cap, hrep, hzl, sl1, sl2,
      sl3, sl4, m2, m3, m4, m5, mh, mp, Nat.shiftRight_eq_div_pow, q1, q2, q3, q4, so, hsum]
  · simp [hsum]
  · simp [Slice.toList, hsum, p4]
  · intro w1 w2 w3 w4
    have y0 : ∀ x ∈ hc / 256 % 256 :: hc % 256 :: pc / 256 % 256 :: pc % 256 :: hl :: pl ::
        op / 256 % 256 :: op % 256 :: z, x < 256 := by
      intro x hx
      simp only [List.mem_cons] at hx
      rcases hx with h | h | h | h | h | h | h | h | h
      · omega
      · omega
      · omega
      · omega
      · omega
      · omega
      · omega
      · omega
      · exact hzb x h
    have y1 := Slice.copyInto_bytes _ _ _ _ _ q1 y0 w1
    have y2 := Slice.copyInto_bytes _ _ _ _ _ q2 y1 w2
    have y3 := Slice.copyInto_bytes _ _ _ _ _ q3 y2 w3
    exact Slice.copyInto_bytes buf3 _ buf4 _ _ q4 y3 w4

/-- A sequence returns normally exactly when both parts do. -/
theorem Run.bind_eq_ok {α β : Type} (x : Run α) (f : α → Run β) (b : β) :
    (x >>= f) = Run.ok b ↔ ∃ a, x = Run.ok a ∧ f a = Run.ok b := by
  cases x with
  | ok a => simp
  | panic => simp

/-- A `copy` into `s[lo:hi]` that returns has `lo ≤ hi`. -/
theorem Slice.copyInto_ok_le (s src s' : Slice) (lo hi : Nat)
    (h : s.copyInto lo hi src = Run.ok s') : lo ≤ hi := by
  unfold Slice.copyInto at h
  split_ifs at h with hc
  exact hc.1

/-- A sub-range of `ref` read from `ref ++ rest`. -/
theorem take_drop_append (ref rest : List Nat) (k n : Nat) (h : k + n ≤ ref.length) :
    ((ref ++ rest).drop k).take n = (ref.drop k).take n := by
  rw [List.drop_append_of_le_length (by omega),
    List.take_append_of_le_length (by rw [List.length_drop]; omega)]

/-- A list of length 6, written out. -/
theorem exists_six (l : List Nat) (h : l.length = 6) :
    ∃ a b c d e f, l = [a, b, c, d, e, f] := by
  obtain ⟨a, b, c, d, t, rfl⟩ := exists_prefix4 l (by omega)
  rcases t with _ | ⟨e, _ | ⟨f, _ | ⟨g, t⟩⟩⟩
  · simp at h
  · simp at h
  · exact ⟨a, b, c, d, e, f, rfl⟩
  · simp at h

/-- A list with at least 14 elements starts with 14 explicit elements. -/
theorem exists_prefix14 (l : List Nat) (h : 14 ≤ l.length) :
    ∃ b0 b1 b2 b3 b4 b5 b6 b7 b8 b9 b10 b11 b12 b13 t,
      l = b0 :: b1 :: b2 :: b3 :: b4 :: b5 :: b6 :: b7 :: b8 :: b9 :: b10 :: b11 :: b12 ::
        b13 :: t := by
  obtain ⟨b0, b1, b2, b3, b4, b5, b6, b7, t, rfl⟩ := exists_prefix8 l (by omega)
  obtain ⟨b8, b9, b10, b11, t, rfl⟩ := exists_prefix4 t (by simp at h; omega)
  rcases t with _ | ⟨b12, _ | ⟨b13, t⟩⟩
  · simp at h
  · simp at h
  · exact ⟨b0, b1, b2, b3, b4, b5, b6, b7, b8, b9, b10, b11, b12, b13, t, rfl⟩

/-- Four bytes joined big-endian, as `binary.BigEndian.Uint32` computes them. -/
theorem be32 (a b c d : Nat) (ha : a < 256) (hb : b < 256) (hc : c < 256) (hd : d < 256) :
    d ||| (c <<< 8) % 4294967296 ||| (b <<< 16) % 4294967296 ||| (a <<< 24) % 4294967296
      = a * 16777216 + b * 65536 + c * 256 + d := by
  have s1 : c <<< 8 = c * 256 := by simp [Nat.shiftLeft_eq]
  have s2 : b <<< 16 = b * 65536 := by simp [Nat.shiftLeft_eq]
  have s3 : a <<< 24 = a * 16777216 := by simp [Nat.shiftLeft_eq]
  have o1 := or_shiftLeft c d 8 (by simpa using hd)
  have o2 := or_shiftLeft b (c * 256 + d) 16 (by norm_num; omega)
  have o3 := or_shiftLeft a (b * 65536 + (c * 256 + d)) 24 (by norm_num; omega)
  norm_num at o1 o2 o3
  rw [Nat.mod_eq_of_lt (by omega), Nat.mod_eq_of_lt (by omega), Nat.mod_eq_of_lt (by omega),
    o1, s2, ← s2, o2, o3]
  omega

/-- Writing a 32-bit value big-endian and reading it back. -/
theorem be32_put (v : Nat) (hv : v < 4294967296) :
    v % 256 ||| (v / 256 % 256) <<< 8 % 4294967296 ||| (v / 65536 % 256) <<< 16 % 4294967296
      ||| (v / 16777216 % 256) <<< 24 % 4294967296 = v := by
  rw [be32 _ _ _ _ (Nat.mod_lt _ (by norm_num)) (Nat.mod_lt _ (by norm_num))
    (Nat.mod_lt _ (by norm_num)) (Nat.mod_lt _ (by norm_num))]
  omega

/-- Dividing by a power of two distributes over a bitwise or. -/
theorem or_div_two_pow (a b k : Nat) : (a ||| b) / 2 ^ k = a / 2 ^ k ||| b / 2 ^ k := by
  induction k with
  | zero => simp
  | succ k ih =>
    rw [Nat.pow_succ, ← Nat.div_div_eq_div_mul, ← Nat.div_div_eq_div_mul,
      ← Nat.div_div_eq_div_mul, ih, Nat.or_div_two]

/-- The remainder modulo a power of two distributes over a bitwise or. -/
theorem or_mod_two_pow (a b k : Nat) : (a ||| b) % 2 ^ k = a % 2 ^ k ||| b % 2 ^ k := by
  apply Nat.eq_of_testBit_eq
  intro i
  simp only [Nat.testBit_mod_two_pow, Nat.testBit_or]
  cases decide (i < k) <;> simp

/-- The bytes `Ether.Encode` returns: the first 6 bytes of `Dst`, zero-filled
to 6 where `Dst` is shorter, the same for `Src`, then `Type` big-endian. -/
theorem Ether.Encode_bytes (e : Ether) (hd : e.Dst.len ≤ e.Dst.arr.length)
    (hs : e.Src.len ≤ e.Src.arr.length) :
    ∃ out, e.Encode = .ok out ∧ out.len = 14 ∧ out.cap = 14 ∧
      out.toList = (e.Dst.toList.take 6 ++ List.replicate (6 - e.Dst.len) 0) ++
        ((e.Src.toList.take 6 ++ List.replicate (6 - e.Src.len) 0) ++
          [e.EthType / 256 % 256, e.EthType % 256]) := by
  obtain ⟨⟨darr, dlen⟩, ⟨sarr, slen⟩, ty, ln⟩ := e
  have hd1 : dlen ≤ darr.length := hd
  have hs1 : slen ≤ sarr.length := hs
  obtain ⟨n, hn⟩ : ∃ n, n = min 6 dlen := ⟨_, rfl⟩
  obtain ⟨m, hm⟩ : ∃ m, m = min 6 slen := ⟨_, rfl⟩
  have hnl : (darr.take n).length = n := by rw [List.length_take]; omega
  have hml : (sarr.take m).length = m := by rw [List.length_take]; omega
  have e1 : List.take 6 (darr.take n ++ List.replicate (14 - n) 0)
      = darr.take n ++ List.replicate (6 - n) 0 := by
    rw [List.take_append_eq_append_take, hnl, List.take_replicate,
      List.take_of_length_le (by omega)]
    congr 2; omega
  have e2 : List.drop (6 + m) (darr.take n ++ List.replicate (14 - n) 0)
      = List.replicate (8 - m) 0 := by
    rw [List.drop_append_eq_append_drop, hnl, List.drop_replicate,
      List.drop_of_length_le (by omega), List.nil_append]
    congr 1; omega
  obtain ⟨p0, p1, p2, p3, p4, p5, hP⟩ := exists_six (darr.take n ++ List.replicate (6 - n) 0)
    (by rw [List.length_append, hnl, List.length_replicate]; omega)
  obtain ⟨q0, q1, q2, q3, q4, q5, hQ⟩ := exists_six (sarr.take m ++ List.replicate (6 - m) 0)
    (by rw [List.length_append, hml, List.length_replicate]; omega)
  have e3 : sarr.take m ++ List.replicate (8 - m) 0 = [q0, q1, q2, q3, q4, q5, 0, 0] := by
    have : 8 - m = (6 - m) + 2 := by omega
    rw [this, List.replicate_add, ← List.append_assoc, hQ]; rfl
  have t1 : List.take 6 (List.take dlen darr) = List.take n darr := by
    rw [List.take_take, hn]
  have t2 : List.take 6 (List.take slen sarr) = List.take m sarr := by
    rw [List.take_take, hm]
  have r1 : 6 - dlen = 6 - n := by omega
  have r2 : 6 - slen = 6 - m := by omega
  simp only [Slice.toList, t1, t2, r1, r2, hP, hQ]
  have hc : 12 ≤ min n darr.length + (14 - n) := by omega
  simp [Ether.Encode, Slice.copyInto, Slice.make, Slice.cap, Slice.slice, PutUint16, ← hn, ← hm,
    e1, e2, e3, hP, Nat.shiftRight_eq_div_pow, -List.reduceReplicate, hc]

/-- The encoder `Ether.Encode` returns 14 bytes when the lengths of both
addresses are within their capacities. -/
theorem ether_encode_len (e : Ether) (hd : e.Dst.len ≤ e.Dst.arr.length)
    (hs : e.Src.len ≤ e.Src.arr.length) : ∃ out, e.Encode = .ok out ∧ out.len = 14 := by
  obtain ⟨out, h1, h2, -⟩ := Ether.Encode_bytes e hd hs
  exact ⟨out, h1, h2⟩

/-- A slice expression that returns gives the sub-slice and stays within the
capacity. -/
theorem Slice.slice_eq_ok (s r : Slice) (lo hi : Nat) (h : s.slice lo hi = Run.ok r) :
    r = ⟨s.arr.drop lo, hi - lo⟩ ∧ lo ≤ hi ∧ hi ≤ s.arr.length := by
  unfold Slice.slice at h
  split_ifs at h with hc
  injection h with h
  exact ⟨h.symm, hc.1, hc.2⟩

/-- The encoder `Tcp.Encode` returns `Len` bytes whenever `0 ≤ Len ≤ 32`. -/
theorem tcp_encode_len (t : Tcp) (k : Nat) (hk : k ≤ 32) (h : t.Len = k) :
    ∃ out, t.Encode = .ok out ∧ out.len = k := by
  simp [Tcp.Encode, PutUint16, PutUint32, Slice.make, Slice.slice, Slice.sliceTo,
    Slice.setIndex, Slice.cap, h, hk]

/-- The encoder `Udp.Encode` returns `Len` bytes whenever `0 ≤ Len ≤ 32`. -/
theorem udp_encode_len (u : Udp) (k : Nat) (hk : k ≤ 32) (h : u.Len = k) :
    ∃ out, u.Encode = .ok out ∧ out.len = k := by
  simp [Udp.Encode, PutUint16, Slice.make, Slice.slice, Slice.sliceTo, Slice.cap, h, hk]

/-- The encoder `Ipv4.Encode` returns `Len` bytes whenever `0 ≤ Len ≤ 32` and
both addresses have capacity for 4 bytes. -/
theorem ipv4_encode_len (i : Ipv4) (k : Nat) (hk : k ≤ 32) (h : i.Len = k)
    (hs : 4 ≤ i.Source.arr.length) (hd : 4 ≤ i.Destination.arr.length) :
    ∃ out, i.Encode = .ok out ∧ out.len = k := by
  simp [Ipv4.Encode, PutUint16, Slice.make, Slice.slice, Slice.sliceTo, Slice.setIndex,
    Slice.copyInto, Slice.cap, h, hk, hs, hd, Nat.min_eq_left hs, Nat.min_eq_left hd]

/-- An 8-bit number that `IpProto2Str` does not name is shown as its two
lowercase hexadecimal digits. -/
theorem IpProto2Str_hex : ∀ p, p < 256 →
    p ∉ [0x01, 0x02, 0x04, 0x06, 0x11, 0x32, 0x33, 0x59, 0x67, 0x70, 0x7c] →
    IpProto2Str p = String.mk ["0123456789abcdef".toList.getD (p / 16) '?',
      "0123456789abcdef".toList.getD (p % 16) '?'] := by
  decide

/-- A named protocol number shares its string with no other 8-bit number. -/
theorem IpProto2Str_named_inj :
    ∀ p ∈ [0x01, 0x02, 0x04, 0x06, 0x11, 0x32, 0x33, 0x59, 0x67, 0x70, 0x7c],
      ∀ q, q < 256 → IpProto2Str p = IpProto2Str q → p = q := by
  decide

/-- Distinct digits below 16 have distinct lowercase hexadecimal characters. -/
theorem hexChar_inj : ∀ a, a < 16 → ∀ b, b < 16 →
    "0123456789abcdef".toList.getD a '?' = "0123456789abcdef".toList.getD b '?' → a = b := by
  decide

/-- An error of `Arp.Decode` on a well-formed buffer of at least 8 bytes leaves
the five header fields read from bytes 0-7 in the receiver. -/
theorem arp_error_fields (a r : Arp) (frame : Slice) (err : GoError) (hwf : frame.WF)
    (h8 : 8 ≤ frame.len) (h : Arp.Decode a frame = .ok (r, some err)) :
    r.HrdCode = frame.byte 0 * 256 + frame.byte 1 ∧
    r.ProCode = frame.byte 2 * 256 + frame.byte 3 ∧
    r.HrdLen = frame.byte 4 ∧ r.ProLen = frame.byte 5 ∧
    r.OpCode = frame.byte 6 * 256 + frame.byte 7 := by
  obtain ⟨arr, len⟩ := frame
  obtain ⟨hle, hb⟩ := hwf
  simp only at hle hb h8
  obtain ⟨b0, b1, b2, b3, b4, b5, b6, b7, t, rfl⟩ := exists_prefix8 arr (by omega)
  have h0 : b0 < 256 := hb b0 (by simp)
  have h1 : b1 < 256 := hb b1 (by simp)
  have h2 : b2 < 256 := hb b2 (by simp)
  have h3 : b3 < 256 := hb b3 (by simp)
  have h6 : b6 < 256 := hb b6 (by simp)
  have h7 : b7 < 256 := hb b7 (by simp)
  have h8' : ¬ len < 8 := by omega
  have hl4 : 4 < len := by omega
  have hl5 : 5 < len := by omega
  simp [Arp.Decode, Slice.slice, Slice.cap, Uint16, Slice.index, List.getD, h8', hl4, hl5,
    Run.ite_bind, be16 _ _ h0 h1, be16 _ _ h2 h3, be16 _ _ h6 h7] at h
  split_ifs at h <;> simp at h
  obtain ⟨rfl, -⟩ := h
  simp [Slice.byte]

/-- An error of `Ipv4.Decode` on a well-formed buffer of at least 20 bytes is the
version error, and leaves the ten header fields read from bytes 0-11 in the
receiver. -/
theorem ipv4_error_fields (i r : Ipv4) (frame : Slice) (err : GoError) (hwf : frame.WF)
    (h20 : 20 ≤ frame.len) (h : Ipv4.Decode i frame = .ok (r, some err)) :
    r.Version = frame.byte 0 / 16 ∧ r.HeaderLen = frame.byte 0 % 16 ∧
    r.ToS = frame.byte 1 ∧ r.TotalLen = frame.byte 2 * 256 + frame.byte 3 ∧
    r.Identifier = frame.byte 4 * 256 + frame.byte 5 ∧
    r.Flag = (frame.byte 6 * 256 + frame.byte 7) / 8192 ∧
    r.Offset = (frame.byte 6 * 256 + frame.byte 7) % 8192 ∧
    r.ToL = frame.byte 8 ∧ r.Protocol = frame.byte 9 ∧
    r.HeaderChecksum = frame.byte 10 * 256 + frame.byte 11 ∧ frame.byte 0 / 16 ≠ 4 := by
  obtain ⟨arr, len⟩ := frame
  obtain ⟨hle, hb⟩ := hwf
  simp only at hle hb h20
  obtain ⟨b0, b1, b2, b3, b4, b5, b6, b7, b8, b9, b10, b11, b12, b13, b14, b15, b16, b17,
    b18, b19, t, rfl⟩ := exists_prefix20 arr (by omega)
  have h2 : b2 < 256 := hb b2 (by simp)
  have h3 : b3 < 256 := hb b3 (by simp)
  have h4 : b4 < 256 := hb b4 (by simp)
  have h5 : b5 < 256 := hb b5 (by simp)
  have h6 : b6 < 256 := hb b6 (by simp)
  have h7 : b7 < 256 := hb b7 (by simp)
  have h10 : b10 < 256 := hb b10 (by simp)
  have h11 : b11 < 256 := hb b11 (by simp)
  have hs : ¬ len < 20 := by omega
  have hl0 : 0 < len := by omega
  have hl1 : 1 < len := by omega
  have hl8 : 8 < len := by omega
  have hl9 : 9 < len := by omega
  by_cases hv : b0 / 16 = 4
  · simp [Ipv4.Decode, Ipv4.IsIP4, IPV4_LEN, IPV4_VER, Slice.slice, Slice.cap,
      Uint16, Slice.index, List.getD, be16 _ _ h2 h3, be16 _ _ h4 h5,
      be16 _ _ h6 h7, be16 _ _ h10 h11, and_0f, and_1fff, Nat.shiftRight_eq_div_pow, hv, hs,
      hl0, hl1, hl8, hl9] at h
  · simp [Ipv4.Decode, Ipv4.IsIP4, IPV4_LEN, IPV4_VER, Slice.slice, Slice.cap,
      Uint16, Slice.index, List.getD, be16 _ _ h2 h3, be16 _ _ h4 h5,
      be16 _ _ h6 h7, be16 _ _ h10 h11, and_0f, and_1fff, Nat.shiftRight_eq_div_pow, hv, hs,
      hl0, hl1, hl8, hl9] at h
    obtain ⟨rfl, -⟩ := h
    simp [Slice.byte, hv]

/-- On a well-formed buffer with its 8 header bytes that is shorter than the
8-bit bound `p+2*(a.HrdLen+a.ProLen)`, `Arp.Decode` returns its second length
error. -/
theorem arp_second_error (a : Arp) (frame : Slice) (hwf : frame.WF) (h8 : 8 ≤ frame.len)
    (hlt : frame.len < (8 + (2 * ((frame.byte 4 + frame.byte 5) % 256)) % 256) % 256) :
    ∃ r err, Arp.Decode a frame = .ok (r, some err) := by
  obtain ⟨arr, len⟩ := frame
  obtain ⟨hle, hb⟩ := hwf
  simp only at hle hb h8
  obtain ⟨b0, b1, b2, b3, b4, b5, b6, b7, t, rfl⟩ := exists_prefix8 arr (by omega)
  simp only [Slice.byte, List.getD_cons_succ, List.getD_cons_zero] at hlt
  have h8' : ¬ len < 8 := by omega
  have hl4 : 4 < len := by omega
  have hl5 : 5 < len := by omega
  have hlt' : len < (8 + 2 * (b4 + b5)) % 256 := by omega
  simp [Arp.Decode, Slice.slice, Slice.cap, Uint16, Slice.index, List.getD, h8', hl4, hl5,
    Run.ite_bind, hlt']

/-- On a well-formed buffer of at least 20 bytes whose version nibble is not 4,
`Ipv4.Decode` returns its version error. -/
theorem ipv4_second_error (i : Ipv4) (frame : Slice) (hwf : frame.WF) (h20 : 20 ≤ frame.len)
    (hv : frame.byte 0 / 16 ≠ 4) : ∃ r err, Ipv4.Decode i frame = .ok (r, some err) := by
  obtain ⟨arr, len⟩ := frame
  obtain ⟨hle, hb⟩ := hwf
  simp only at hle hb h20
  obtain ⟨b0, b1, b2, b3, b4, b5, b6, b7, b8, b9, b10, b11, b12, b13, b14, b15, b16, b17,
    b18, b19, t, rfl⟩ := exists_prefix20 arr (by omega)
  simp only [Slice.byte, List.getD_cons_zero] at hv
  have hs : ¬ len < 20 := by omega
  have hl0 : 0 < len := by omega
  have hl1 : 1 < len := by omega
  have hl8 : 8 < len := by omega
  have hl9 : 9 < len := by omega
  simp [Ipv4.Decode, Ipv4.IsIP4, IPV4_LEN, IPV4_VER, Slice.slice, Slice.cap, Uint16,
    Slice.index, List.getD, Nat.shiftRight_eq_div_pow, hv, hs, hl0, hl1, hl8, hl9]

/-! ## ARP -/

/-- C1 (the code departs from the claim): on a well-formed buffer with its 8
header bytes whose lengths `h = b[4]`, `p = b[5]` make `8 + 2*(h + p)` reach
256, the bound `p+2*(a.HrdLen+a.ProLen)` wraps in `uint8`; whenever the buffer
is at least as long as the wrapped bound, the length test passes and
`Arp.Decode` panics while slicing an address instead of returning an error.
With `h = p = 255` the wrapped bound is 4, so every such buffer panics, the
20-byte one included. -/
theorem arp_decode_panics (a : Arp) (frame : Slice) (hwf : frame.WF) (h8 : 8 ≤ frame.len)
    (hwrap : 256 ≤ 8 + 2 * (frame.byte 4 + frame.byte 5))
    (hpass : (8 + (2 * ((frame.byte 4 + frame.byte 5) % 256)) % 256) % 256 ≤ frame.len) :
    Arp.Decode a frame = Run.panic := by
  obtain ⟨arr, len⟩ := frame
  obtain ⟨hle, hb⟩ := hwf
  simp only at hle hb h8
  obtain ⟨b0, b1, b2, b3, b4, b5, b6, b7, t, rfl⟩ := exists_prefix8 arr (by omega)
  have h4 : b4 < 256 := hb b4 (by simp)
  have h5 : b5 < 256 := hb b5 (by simp)
  simp only [Slice.byte, List.getD_cons_succ, List.getD_cons_zero] at hwrap hpass
  have h8' : ¬ len < 8 := by omega
  have hl4 : 4 < len := by omega
  have hl5 : 5 < len := by omega
  simp [Arp.Decode, Slice.slice, Slice.cap, Uint16, Slice.index, List.getD, h8', hl4, hl5,
    Run.ite_bind]
  split_ifs <;> first | rfl | (exfalso; omega)

/-- A 20-byte buffer announcing `h = 255`, `p = 255` makes `Arp.Decode` panic. -/
theorem arp_decode_panics_witness :
    Arp.Decode NewArp (Slice.ofList
      [0, 1, 8, 0, 255, 255, 0, 1, 0, 0, 0, 0, 0, 0, 0, 0, 0, 0, 0, 0]) = Run.panic :=
  arp_decode_panics NewArp (Slice.ofList
    [0, 1, 8, 0, 255, 255, 0, 1, 0, 0, 0, 0, 0, 0, 0, 0, 0, 0, 0, 0])
    (by decide) (by decide) (by decide) (by decide)

/-- C2 (the code departs from the claim): for 8-bit `HrdLen` and `ProLen` with
`8 + 2*(HrdLen + ProLen) ≥ 256`, whatever the four addresses hold, the `uint8`
running offset of `Arp.Encode` wraps and `Encode` panics instead of returning
the bytes. -/
theorem arp_encode_panics (a : Arp) (hh : a.HrdLen < 256) (hp : a.ProLen < 256)
    (hwrap : 256 ≤ 8 + 2 * (a.HrdLen + a.ProLen)) :
    Arp.Encode a = Run.panic := by
  cases hE : Arp.Encode a with
  | panic => rfl
  | ok v =>
    exfalso
    simp only [Arp.Encode, Run.bind_eq_ok, Run.pure_eq] at hE
    obtain ⟨_, -, _, -, _, -, _, -, _, -, _, -, _, q1, _, -, _, q2, _, -, _, q3, _, -, _, q4, -⟩ := hE
    have l1 := Slice.copyInto_ok_le _ _ _ _ _ q1
    have l2 := Slice.copyInto_ok_le _ _ _ _ _ q2
    have l3 := Slice.copyInto_ok_le _ _ _ _ _ q3
    have l4 := Slice.copyInto_ok_le _ _ _ _ _ q4
    omega

/-- The method `Encode` panics for `HrdLen = ProLen = 255` with four 255-byte addresses. -/
theorem arp_encode_panics_witness :
    Arp.Encode
      { NewArp with
        HrdLen := 255, ProLen := 255,
        SHwAddr := Slice.make 255, SIpAddr := Slice.make 255,
        THwAddr := Slice.make 255, TIpAddr := Slice.make 255 } = Run.panic :=
  arp_encode_panics _ (by decide) (by decide) (by decide)

/-- Round trip of the ARP codec below the wrap of the 8-bit offset: for an
`Arp` value with 16-bit codes, `8 + 2*(HrdLen + ProLen) < 256`, `SHwAddr` and
`THwAddr` of exactly `HrdLen` bytes and `SIpAddr` and `TIpAddr` of exactly
`ProLen` bytes, `Encode` returns normally and `NewArpFromFrame` of the result
succeeds with the same codes, lengths and addresses and with
`Len = 8 + 2*(HrdLen + ProLen)`. -/
theorem arp_encode_decode_small (a : Arp) (hfit : 8 + 2 * (a.HrdLen + a.ProLen) < 256)
    (hhc : a.HrdCode < 65536) (hpc : a.ProCode < 65536) (hop : a.OpCode < 65536)
    (w1 : a.SHwAddr.WF) (l1 : a.SHwAddr.len = a.HrdLen)
    (w2 : a.SIpAddr.WF) (l2 : a.SIpAddr.len = a.ProLen)
    (w3 : a.THwAddr.WF) (l3 : a.THwAddr.len = a.HrdLen)
    (w4 : a.TIpAddr.WF) (l4 : a.TIpAddr.len = a.ProLen) :
    ∃ a' out r, Arp.Encode a = .ok (a', out) ∧ NewArpFromFrame out = .ok (r, none) ∧
      r.HrdCode = a.HrdCode ∧ r.ProCode = a.ProCode ∧ r.HrdLen = a.HrdLen ∧
      r.ProLen = a.ProLen ∧ r.OpCode = a.OpCode ∧
      r.SHwAddr.toList = a.SHwAddr.toList ∧ r.SIpAddr.toList = a.SIpAddr.toList ∧
      r.THwAddr.toList = a.THwAddr.toList ∧ r.TIpAddr.toList = a.TIpAddr.toList ∧
      r.Len = 8 + 2 * ((a.HrdLen : Int) + a.ProLen) := by
  obtain ⟨hc, pc, hl, pl, op, s1, s2, s3, s4, ln⟩ := a
  simp only at hfit hhc hpc hop l1 l2 l3 l4 w1 w2 w3 w4
  have n1 : s1.toList.length = hl := by
    simp only [Slice.toList, List.length_take]; have := w1.1; omega
  have n2 : s2.toList.length = pl := by
    simp only [Slice.toList, List.length_take]; have := w2.1; omega
  have n3 : s3.toList.length = hl := by
    simp only [Slice.toList, List.length_take]; have := w3.1; omega
  have n4 : s4.toList.length = pl := by
    simp only [Slice.toList, List.length_take]; have := w4.1; omega
  have t1 : s1.arr.take hl = s1.toList := by rw [Slice.toList, l1]
  have t2 : s2.arr.take pl = s2.toList := by rw [Slice.toList, l2]
  have t3 : s3.arr.take hl = s3.toList := by rw [Slice.toList, l3]
  have t4 : s4.arr.take pl = s4.toList := by rw [Slice.toList, l4]
  generalize s1.toList = u1 at n1 t1 ⊢
  generalize s2.toList = u2 at n2 t2 ⊢
  generalize s3.toList = u3 at n3 t3 ⊢
  generalize s4.toList = u4 at n4 t4 ⊢
  obtain ⟨ref, href⟩ : ∃ ref : List Nat, ref =
      [hc / 256 % 256, hc % 256, pc / 256 % 256, pc % 256, hl, pl, op / 256 % 256, op % 256]
        ++ (u1 ++ (u2 ++ (u3 ++ u4))) := ⟨_, rfl⟩
  have d1 : ref.drop 8 = u1 ++ (u2 ++ (u3 ++ u4)) := by rw [href]; rfl
  have d2 : ref.drop (8 + hl) = u2 ++ (u3 ++ u4) := by
    rw [← List.drop_drop, d1, List.drop_left' n1]
  have d3 : ref.drop (8 + hl + pl) = u3 ++ u4 := by
    rw [← List.drop_drop, d2, List.drop_left' n2]
  have d4 : ref.drop (8 + hl + pl + hl) = u4 := by
    rw [← List.drop_drop, d3, List.drop_left' n3]
  have hreflen : ref.length = 8 + 2 * (hl + pl) := by
    rw [href]; simp [n1, n2, n3, n4]; omega
  obtain ⟨out, henc, hlen, hout, hcap, hbytes⟩ := Arp.Encode_rebuilds
    ⟨hc, pc, hl, pl, op, s1, s2, s3, s4, ln⟩ ref hfit (by rw [href]; rfl)
    (by have := w1.1; simp only [Slice.cap]; omega)
    (by simp only; rw [t1, d1, List.take_left' n1])
    (by have := w2.1; simp only [Slice.cap]; omega)
    (by simp only; rw [t2, d2, List.take_left' n2])
    (by have := w3.1; simp only [Slice.cap]; omega)
    (by simp only; rw [t3, d3, List.take_left' n3])
    (by have := w4.1; simp only [Slice.cap]; omega)
    (by simp only; rw [t4, d4, List.take_of_length_le (by omega)])
  have hob := hbytes w1.2 w2.2 w3.2 w4.2
  simp only at hlen hout hcap
  rw [List.take_of_length_le (by omega)] at hout
  have howf : out.WF := ⟨by rw [hlen]; unfold Slice.cap at hcap; omega, hob⟩
  obtain ⟨oarr, olen⟩ := out
  simp only [Slice.toList] at hout
  simp only at hlen
  subst hlen
  have harr : oarr = ref ++ oarr.drop (8 + 2 * (hl + pl)) := by
    rw [← hout, List.take_append_drop]
  generalize oarr.drop (8 + 2 * (hl + pl)) = rest at harr
  subst harr
  have b4 : Slice.byte ⟨ref ++ rest, 8 + 2 * (hl + pl)⟩ 4 = hl := by rw [href]; rfl
  have b5 : Slice.byte ⟨ref ++ rest, 8 + 2 * (hl + pl)⟩ 5 = pl := by rw [href]; rfl
  have hdec : NewArpFromFrame ⟨ref ++ rest, 8 + 2 * (hl + pl)⟩ =
      .ok (Arp.decoded ⟨ref ++ rest, 8 + 2 * (hl + pl)⟩, none) :=
    (Arp.Decode_eq_ok_iff _ _ _ howf).mpr
      ⟨by simp only; omega, by rw [b4, b5]; exact hfit, by rw [b4, b5], rfl⟩
  refine ⟨_, _, _, henc, hdec, ?_, ?_, b4, b5, ?_, ?_, ?_, ?_, ?_, ?_⟩
  · show Slice.byte _ 0 * 256 + Slice.byte _ 1 = hc
    have e0 : Slice.byte ⟨ref ++ rest, 8 + 2 * (hl + pl)⟩ 0 = hc / 256 % 256 := by rw [href]; rfl
    have e1 : Slice.byte ⟨ref ++ rest, 8 + 2 * (hl + pl)⟩ 1 = hc % 256 := by rw [href]; rfl
    rw [e0, e1]; omega
  · show Slice.byte _ 2 * 256 + Slice.byte _ 3 = pc
    have e0 : Slice.byte ⟨ref ++ rest, 8 + 2 * (hl + pl)⟩ 2 = pc / 256 % 256 := by rw [href]; rfl
    have e1 : Slice.byte ⟨ref ++ rest, 8 + 2 * (hl + pl)⟩ 3 = pc % 256 := by rw [href]; rfl
    rw [e0, e1]; omega
  · show Slice.byte _ 6 * 256 + Slice.byte _ 7 = op
    have e0 : Slice.byte ⟨ref ++ rest, 8 + 2 * (hl + pl)⟩ 6 = op / 256 % 256 := by rw [href]; rfl
    have e1 : Slice.byte ⟨ref ++ rest, 8 + 2 * (hl + pl)⟩ 7 = op % 256 := by rw [href]; rfl
    rw [e0, e1]; omega
  · show ((ref ++ rest).drop 8).take (Slice.byte _ 4) = u1
    rw [b4, take_drop_append _ _ _ _ (by omega), d1, List.take_left' n1]
  · show ((ref ++ rest).drop (8 + Slice.byte _ 4)).take (Slice.byte _ 5) = u2
    rw [b4, b5, take_drop_append _ _ _ _ (by omega), d2, List.take_left' n2]
  · show ((ref ++ rest).drop (8 + Slice.byte _ 4 + Slice.byte _ 5)).take (Slice.byte _ 4) = u3
    rw [b4, b5, take_drop_append _ _ _ _ (by omega), d3, List.take_left' n3]
  · show ((ref ++ rest).drop (8 + Slice.byte _ 4 + Slice.byte _ 5 + Slice.byte _ 4)).take
      (Slice.byte _ 5) = u4
    rw [b4, b5, take_drop_append _ _ _ _ (by omega), d4, List.take_of_length_le (by omega)]
  · show (((8 + 2 * (Slice.byte _ 4 + Slice.byte _ 5) : Nat)) : Int) = _
    rw [b4, b5]; push_cast; ring

/-- The standard Ethernet/IPv4 ARP request (hardware length 6, protocol length
4) is encoded and decoded back to the same message, with `Len = 28`. -/
theorem arp_encode_decode_small_witness :
    ∃ a' out r,
      Arp.Encode
        { NewArp with
          SHwAddr := DEFAULTED, SIpAddr := Slice.ofList [10, 0, 0, 1],
          THwAddr := ZEROED, TIpAddr := Slice.ofList [10, 0, 0, 2] } = .ok (a', out) ∧
      NewArpFromFrame out = .ok (r, none) ∧
      r.HrdCode = 1 ∧ r.ProCode = 0x0800 ∧ r.HrdLen = 6 ∧ r.ProLen = 4 ∧ r.OpCode = 1 ∧
      r.SHwAddr.toList = [0x00, 0x16, 0x3e, 0x02, 0x56, 0x23] ∧
      r.SIpAddr.toList = [10, 0, 0, 1] ∧ r.THwAddr.toList = [0, 0, 0, 0, 0, 0] ∧
      r.TIpAddr.toList = [10, 0, 0, 2] ∧ r.Len = 28 :=
  arp_encode_decode_small
    { NewArp with
      SHwAddr := DEFAULTED, SIpAddr := Slice.ofList [10, 0, 0, 1],
      THwAddr := ZEROED, TIpAddr := Slice.ofList [10, 0, 0, 2] }
    (by decide) (by decide) (by decide) (by decide) (by decide) (by decide) (by decide)
    (by decide) (by decide) (by decide) (by decide) (by decide)

/-- C3: whenever `Arp.Decode` returns without error on a well-formed buffer,
with `h = HrdLen = b[4]` and `p = ProLen = b[5]`: `Len = 8 + 2*(h + p)` as an
unbounded integer, `Len ≤ len(b)`, and the four addresses are the consecutive
sub-ranges `b[8 .. 8+h)`, `b[8+h .. 8+h+p)`, `b[8+h+p .. 8+2h+p)`,
`b[8+2h+p .. 8+2h+2p)`.  Moreover every buffer of at least 28 bytes with
`h = 6`, `p = 4` is decoded without error, with `Len = 28`. -/
theorem arp_decode_layout (a : Arp) (frame : Slice) (hwf : frame.WF) :
    (∀ r, Arp.Decode a frame = .ok (r, none) →
      r.HrdLen = frame.byte 4 ∧ r.ProLen = frame.byte 5 ∧
      r.Len = 8 + 2 * ((r.HrdLen : Int) + r.ProLen) ∧ r.Len ≤ frame.len ∧
      r.SHwAddr.len = r.HrdLen ∧
      r.SHwAddr.toList = (frame.toList.drop 8).take r.HrdLen ∧
      r.SIpAddr.len = r.ProLen ∧
      r.SIpAddr.toList = (frame.toList.drop (8 + r.HrdLen)).take r.ProLen ∧
      r.THwAddr.len = r.HrdLen ∧
      r.THwAddr.toList = (frame.toList.drop (8 + r.HrdLen + r.ProLen)).take r.HrdLen ∧
      r.TIpAddr.len = r.ProLen ∧
      r.TIpAddr.toList = (frame.toList.drop (8 + 2 * r.HrdLen + r.ProLen)).take r.ProLen) ∧
    (28 ≤ frame.len → frame.byte 4 = 6 → frame.byte 5 = 4 →
      ∃ r, Arp.Decode a frame = .ok (r, none) ∧ r.Len = 28) := by
  constructor
  · intro r hdec
    obtain ⟨h8, hlt, hfit, rfl⟩ := (Arp.Decode_eq_ok_iff a r frame hwf).mp hdec
    have e : 8 + 2 * frame.byte 4 + frame.byte 5 = 8 + frame.byte 4 + frame.byte 5 + frame.byte 4 := by
      omega
    simp only [Arp.decoded, Slice.toList, e]
    refine ⟨trivial, trivial, by push_cast; ring, by exact_mod_cast hfit, trivial, ?_, trivial, ?_,
      trivial, ?_, trivial, ?_⟩
    · rw [take_drop_take _ _ _ _ (by omega)]
    · rw [take_drop_take _ _ _ _ (by omega)]
    · rw [take_drop_take _ _ _ _ (by omega)]
    · rw [take_drop_take _ _ _ _ (by omega)]
  · intro h28 h6 h4
    refine ⟨Arp.decoded frame, (Arp.Decode_eq_ok_iff a _ frame hwf).mpr ⟨by omega, ?_, ?_, rfl⟩, ?_⟩
    · rw [h6, h4]; norm_num
    · rw [h6, h4]; omega
    · simp [Arp.decoded, h6, h4]

/-- The standard 28-byte Ethernet/IPv4 ARP request decodes with `Len = 28` and
its four addresses at offsets 8, 14, 18 and 24. -/
theorem arp_decode_layout_witness :
    ∃ r, Arp.Decode NewArp (Slice.ofList
        [0, 1, 8, 0, 6, 4, 0, 1, 0x00, 0x16, 0x3e, 0x02, 0x56, 0x23, 10, 0, 0, 1,
      0, 0, 0, 0, 0, 0, 10, 0, 0, 2]) = .ok (r, none) ∧
      r.Len = 28 ∧ r.SHwAddr.toList = [0x00, 0x16, 0x3e, 0x02, 0x56, 0x23] ∧
      r.SIpAddr.toList = [10, 0, 0, 1] ∧ r.THwAddr.toList = [0, 0, 0, 0, 0, 0] ∧
      r.TIpAddr.toList = [10, 0, 0, 2] := by
  have h := arp_decode_layout NewArp (Slice.ofList
    [0, 1, 8, 0, 6, 4, 0, 1, 0x00, 0x16, 0x3e, 0x02, 0x56, 0x23, 10, 0, 0, 1,
      0, 0, 0, 0, 0, 0, 10, 0, 0, 2]) (by decide)
  obtain ⟨r, hdec, hlen⟩ := h.2 (by decide) (by decide) (by decide)
  obtain ⟨e4, e5, -, -, -, h1, -, h2, -, h3, -, h4⟩ := h.1 r hdec
  have e4' : r.HrdLen = 6 := e4
  have e5' : r.ProLen = 4 := e5
  rw [e4'] at h1 h2 h3 h4
  rw [e5'] at h2 h3 h4
  exact ⟨r, hdec, hlen, h1, h2, h3, h4⟩

/-- C4: whenever `NewArpFromFrame` succeeds on a well-formed buffer, `Encode`
of the decoded message returns normally, leaves the message as it is, and
returns exactly the first `Len` bytes of the buffer. -/
theorem arp_decode_encode (frame : Slice) (r : Arp) (hwf : frame.WF)
    (hdec : NewArpFromFrame frame = .ok (r, none)) :
    ∃ out, Arp.Encode r = .ok (r, out) ∧ (out.len : Int) = r.Len ∧
      out.toList = frame.toList.take r.Len.toNat := by
  obtain ⟨h8, hlt, hfit, rfl⟩ := (Arp.Decode_eq_ok_iff _ r frame hwf).mp hdec
  have hhdr : frame.arr.take 8 = [(Arp.decoded frame).HrdCode / 256 % 256,
      (Arp.decoded frame).HrdCode % 256, (Arp.decoded frame).ProCode / 256 % 256,
      (Arp.decoded frame).ProCode % 256, (Arp.decoded frame).HrdLen, (Arp.decoded frame).ProLen,
      (Arp.decoded frame).OpCode / 256 % 256, (Arp.decoded frame).OpCode % 256] := by
    obtain ⟨arr, len⟩ := frame
    obtain ⟨hle, hb⟩ := hwf
    simp only at hle hb h8
    obtain ⟨b0, b1, b2, b3, b4, b5, b6, b7, t, rfl⟩ := exists_prefix8 arr (by omega)
    have h0 : b0 < 256 := hb b0 (by simp)
    have h1 : b1 < 256 := hb b1 (by simp)
    have h2 : b2 < 256 := hb b2 (by simp)
    have h3 : b3 < 256 := hb b3 (by simp)
    have h6 : b6 < 256 := hb b6 (by simp)
    have h7 : b7 < 256 := hb b7 (by simp)
    simp [Arp.decoded, Slice.byte, be16_hi _ _ h0 h1, be16_hi _ _ h2 h3, be16_hi _ _ h6 h7,
      be16_lo _ _ h1, be16_lo _ _ h3, be16_lo _ _ h7]
  have hcap : frame.len ≤ frame.arr.length := hwf.1
  obtain ⟨out, henc, hlen, hout, -⟩ := Arp.Encode_rebuilds (Arp.decoded frame) frame.arr hlt hhdr
    (by simp [Arp.decoded, Slice.cap]; omega) rfl
    (by simp [Arp.decoded, Slice.cap]; omega) rfl
    (by simp [Arp.decoded, Slice.cap]; omega) rfl
    (by simp [Arp.decoded, Slice.cap]; omega) rfl
  refine ⟨out, henc, ?_, ?_⟩
  · rw [hlen]; rfl
  · rw [hout]
    simp only [Arp.decoded, Slice.toList, Int.toNat_ofNat, List.take_take]
    rw [Nat.min_eq_left hfit]

/-- The standard 28-byte Ethernet/IPv4 ARP request (hardware length 6, protocol
length 4) is decoded and encoded back to the same 28 bytes. -/
theorem arp_decode_encode_witness :
    ∃ r out, NewArpFromFrame (Slice.ofList
        [0, 1, 8, 0, 6, 4, 0, 1, 0x00, 0x16, 0x3e, 0x02, 0x56, 0x23, 10, 0, 0, 1,
      0, 0, 0, 0, 0, 0, 10, 0, 0, 2]) = .ok (r, none) ∧
      Arp.Encode r = .ok (r, out) ∧ (out.len : Int) = 28 ∧
      out.toList = [0, 1, 8, 0, 6, 4, 0, 1, 0x00, 0x16, 0x3e, 0x02, 0x56, 0x23, 10, 0, 0, 1,
      0, 0, 0, 0, 0, 0, 10, 0, 0, 2] := by
  have hdec : NewArpFromFrame (Slice.ofList
      [0, 1, 8, 0, 6, 4, 0, 1, 0x00, 0x16, 0x3e, 0x02, 0x56, 0x23, 10, 0, 0, 1,
      0, 0, 0, 0, 0, 0, 10, 0, 0, 2]) = .ok (Arp.decoded (Slice.ofList
      [0, 1, 8, 0, 6, 4, 0, 1, 0x00, 0x16, 0x3e, 0x02, 0x56, 0x23, 10, 0, 0, 1,
      0, 0, 0, 0, 0, 0, 10, 0, 0, 2]), none) := by
    decide
  obtain ⟨out, henc, hlen, hout⟩ := arp_decode_encode _ _ (by decide) hdec
  exact ⟨_, out, hdec, henc, hlen, hout⟩

/-! ## Minimum lengths -/

/-- C5: every decoder given a buffer shorter than its layer minimum (Ether 14,
Vlan 4, Arp 8, Ipv4 20, Tcp 20, Udp 8 bytes; the empty buffer included) returns
normally, without a panic, with a non-nil error; the receiver is returned as it
was. -/
theorem decode_rejects_short_buffer (frame : Slice) :
    (∀ e : Ether, frame.len < 14 → ∃ err, Ether.Decode e frame = .ok (e, some err)) ∧
    (∀ n : Vlan, frame.len < 4 → ∃ err, Vlan.Decode n frame = .ok (n, some err)) ∧
    (∀ a : Arp, frame.len < 8 → ∃ err, Arp.Decode a frame = .ok (a, some err)) ∧
    (∀ i : Ipv4, frame.len < 20 → ∃ err, Ipv4.Decode i frame = .ok (i, some err)) ∧
    (∀ t : Tcp, frame.len < 20 → ∃ err, Tcp.Decode t frame = .ok (t, some err)) ∧
    (∀ u : Udp, frame.len < 8 → ∃ err, Udp.Decode u frame = .ok (u, some err)) := by
  refine ⟨?_, ?_, ?_, ?_, ?_, ?_⟩
  · intro e h; exact ⟨_, by rw [Ether.Decode, if_pos h]⟩
  · intro n h; exact ⟨_, by rw [Vlan.Decode, if_pos h]⟩
  · intro a h; exact ⟨_, by rw [Arp.Decode, if_pos h]⟩
  · intro i h; exact ⟨_, by rw [Ipv4.Decode, if_pos (show frame.len < IPV4_LEN from h)]⟩
  · intro t h; exact ⟨_, by rw [Tcp.Decode, if_pos (show frame.len < TCP_LEN from h)]⟩
  · intro u h; exact ⟨_, by rw [Udp.Decode, if_pos (show frame.len < UDP_LEN from h)]⟩

/-- A 10-byte buffer given to `Tcp.Decode` is rejected with an error. -/
theorem decode_rejects_short_buffer_witness :
    ∃ err, Tcp.Decode NewTcp (Slice.make 10) = .ok (NewTcp, some err) :=
  (decode_rejects_short_buffer (Slice.make 10)).2.2.2.2.1 NewTcp (by decide)

/-! ## IPv4 -/

/-- C6: on every well-formed buffer `Ipv4.Decode` returns normally, and it
returns an error if and only if the buffer has fewer than 20 bytes or the top
nibble of byte 0 is not 4.  On success `Version = 4`, `HeaderLen` is the low
nibble of byte 0, `Flag` is the top 3 bits and `Offset` the bottom 13 bits of
the big-endian 16-bit field at bytes 6-7, `Source` is bytes 12-15 and
`Destination` bytes 16-19. -/
theorem ipv4_decode_spec (i : Ipv4) (frame : Slice) (hwf : frame.WF) :
    ∃ r err, Ipv4.Decode i frame = .ok (r, err) ∧
      (err ≠ none ↔ (frame.len < 20 ∨ frame.byte 0 / 16 ≠ 4)) ∧
      (err = none →
        r.Version = 4 ∧ r.HeaderLen = frame.byte 0 % 16 ∧
        r.Flag = (frame.byte 6 * 256 + frame.byte 7) / 8192 ∧
        r.Offset = (frame.byte 6 * 256 + frame.byte 7) % 8192 ∧
        r.Source.len = 4 ∧ r.Source.toList = (frame.toList.drop 12).take 4 ∧
        r.Destination.len = 4 ∧ r.Destination.toList = (frame.toList.drop 16).take 4) := by
  by_cases hshort : frame.len < 20
  · refine ⟨i, _, by rw [Ipv4.Decode, if_pos (show frame.len < IPV4_LEN from hshort)], ?_, ?_⟩
    · simp [hshort]
    · simp
  · obtain ⟨arr, len⟩ := frame
    obtain ⟨hle, hb⟩ := hwf
    simp only at hle hb hshort
    obtain ⟨k, rfl⟩ : ∃ k, len = k + 20 := ⟨len - 20, by omega⟩
    obtain ⟨b0, b1, b2, b3, b4, b5, b6, b7, b8, b9, b10, b11, b12, b13, b14, b15, b16, b17,
      b18, b19, t, rfl⟩ := exists_prefix20 arr (by omega)
    have h2 : b2 < 256 := hb b2 (by simp)
    have h3 : b3 < 256 := hb b3 (by simp)
    have h4 : b4 < 256 := hb b4 (by simp)
    have h5 : b5 < 256 := hb b5 (by simp)
    have h6 : b6 < 256 := hb b6 (by simp)
    have h7 : b7 < 256 := hb b7 (by simp)
    have h10 : b10 < 256 := hb b10 (by simp)
    have h11 : b11 < 256 := hb b11 (by simp)
    by_cases hv : b0 / 16 = 4
    · simp [Ipv4.Decode, Ipv4.IsIP4, IPV4_LEN, IPV4_VER, Slice.slice, Slice.cap, Slice.toList,
        Slice.byte, Uint16, Slice.index, List.getD, be16 _ _ h2 h3, be16 _ _ h4 h5,
        be16 _ _ h6 h7, be16 _ _ h10 h11, and_0f, and_1fff, Nat.shiftRight_eq_div_pow, hv]
      refine ⟨_, _, ⟨rfl, rfl⟩, ?_⟩
      simp
    · simp [Ipv4.Decode, Ipv4.IsIP4, IPV4_LEN, IPV4_VER, Slice.slice, Slice.cap, Slice.toList,
        Slice.byte, Uint16, Slice.index, List.getD, be16 _ _ h2 h3, be16 _ _ h4 h5,
        be16 _ _ h6 h7, be16 _ _ h10 h11, and_0f, and_1fff, Nat.shiftRight_eq_div_pow, hv]
      refine ⟨_, _, ⟨rfl, rfl⟩, ?_⟩
      simp

/-- A 20-byte header `45 00 .. 40 64 ..` decodes without error to `Flag = 2`,
`Offset = 100`, header length 5. -/
theorem ipv4_decode_spec_witness :
    ∃ r, Ipv4.Decode NewIpv4 (Slice.ofList
        [0x45, 0, 0, 20, 0, 1, 0x40, 0x64, 64, 6, 0, 0, 10, 0, 0, 1, 10, 0, 0, 2])
        = .ok (r, none) ∧ r.Version = 4 ∧ r.HeaderLen = 5 ∧ r.Flag = 2 ∧ r.Offset = 100 ∧
      r.Source.toList = [10, 0, 0, 1] ∧ r.Destination.toList = [10, 0, 0, 2] := by
  obtain ⟨r, err, hdec, hiff, hok⟩ := ipv4_decode_spec NewIpv4 (Slice.ofList
    [0x45, 0, 0, 20, 0, 1, 0x40, 0x64, 64, 6, 0, 0, 10, 0, 0, 1, 10, 0, 0, 2]) (by decide)
  have hnone : err = none := by
    by_contra hne
    have h := hiff.mp hne
    revert h
    decide
  subst hnone
  obtain ⟨h1, h2, h3, h4, -, h5, -, h6⟩ := hok rfl
  exact ⟨r, hdec, h1, h2, h3, h4, h5, h6⟩

/-- C7: for every `Ipv4` value `h` (fields within their Go types) with
`Version = 4`, `HeaderLen < 16`, `Flag < 8`, `Offset < 8192`, 4-byte `Source`
and `Destination`, `Options = 0` and `Len = 20`, `Encode` returns 20 bytes on
which `NewIpv4FromFrame` succeeds and returns a header equal to `h` in every
field (the two addresses as byte sequences). -/
theorem ipv4_encode_decode (h : Ipv4) (hty : h.Typed) (hver : h.Version = 4)
    (hhl : h.HeaderLen < 16) (hflag : h.Flag < 8) (hoff : h.Offset < 8192)
    (hsrc : h.Source.len = 4) (hdst : h.Destination.len = 4) (hopt : h.Options = 0)
    (hlen : h.Len = 20) :
    ∃ out r, h.Encode = .ok out ∧ out.len = 20 ∧ NewIpv4FromFrame out = .ok (r, none) ∧
      r.Version = h.Version ∧ r.HeaderLen = h.HeaderLen ∧ r.ToS = h.ToS ∧
      r.TotalLen = h.TotalLen ∧ r.Identifier = h.Identifier ∧ r.Flag = h.Flag ∧
      r.Offset = h.Offset ∧ r.ToL = h.ToL ∧ r.Protocol = h.Protocol ∧
      r.HeaderChecksum = h.HeaderChecksum ∧
      r.Source.len = h.Source.len ∧ r.Source.toList = h.Source.toList ∧
      r.Destination.len = h.Destination.len ∧
      r.Destination.toList = h.Destination.toList ∧
      r.Options = h.Options ∧ r.Len = h.Len := by
  obtain ⟨ver, hl, tos, tl, ident, flag, off, tol, proto, ck, ⟨sarr, slen⟩, ⟨darr, dlen⟩, opt, len⟩ := h
  obtain ⟨-, -, htos, htl, hid, -, -, htol, hproto, hck, ⟨hsle, hsb⟩, ⟨hdle, hdb⟩, -⟩ := hty
  simp only at hver hhl hflag hoff hsrc hdst hopt hlen hsle hdle hsb hdb htos htl hid htol hproto hck
  subst hver hsrc hdst hopt hlen
  obtain ⟨s0, s1, s2, s3, st, rfl⟩ := exists_prefix4 sarr hsle
  obtain ⟨d0, d1, d2, d3, dt, rfl⟩ := exists_prefix4 darr hdle
  have hb0 : (64 ||| hl) % 256 = 64 + hl := by
    have h : 64 ||| hl = 64 + hl := by
      simpa using shiftLeft_or 4 hl 4 (by norm_num; omega)
    rw [h]; omega
  have hf : ((flag <<< 13) % 65536 ||| off) % 65536 = flag * 8192 + off := by
    have h := shl_or_trunc flag off 13 16 (by norm_num; omega) (by norm_num; omega)
    norm_num at h
    rw [h]; omega
  have e1 : (64 + hl) / 16 = 4 := by omega
  have e2 : (64 + hl) % 16 = hl := by omega
  have e3 : (flag * 8192 + off) / 8192 = flag := by omega
  have e4 : (flag * 8192 + off) % 8192 = off := by omega
  simp [Ipv4.Encode, NewIpv4FromFrame, NewIpv4, Ipv4.Decode, Ipv4.IsIP4, IPV4_LEN, IPV4_VER,
    PutUint16, Slice.make, Slice.slice, Slice.sliceTo, Slice.setIndex, Slice.copyInto,
    Slice.cap, Slice.toList, Uint16, Slice.index, replicate32, List.getD, hb0, hf,
    be16_put _ htl, be16_put _ hid, be16_put _ hck, be16_put (flag * 8192 + off) (by omega),
    and_0f, and_1fff, Nat.shiftRight_eq_div_pow, e1, e2, e3, e4]

/-- A header with `Flag = 2` (do not fragment) and `Offset = 100` decodes back
to `Flag = 2`, `Offset = 100`. -/
theorem ipv4_encode_decode_witness :
    ∃ out r, Ipv4.Encode
        { NewIpv4 with
          Flag := 2, Offset := 100,
          Source := Slice.ofList [10, 0, 0, 1], Destination := Slice.ofList [10, 0, 0, 2] }
        = .ok out ∧ NewIpv4FromFrame out = .ok (r, none) ∧ r.Flag = 2 ∧ r.Offset = 100 := by
  obtain ⟨out, r, henc, -, hdec, -, -, -, -, -, hflag, hoff, -⟩ :=
    ipv4_encode_decode
      { NewIpv4 with
        Flag := 2, Offset := 100,
        Source := Slice.ofList [10, 0, 0, 1], Destination := Slice.ofList [10, 0, 0, 2] }
      (by decide) (by decide) (by decide) (by decide) (by decide) (by decide) (by decide)
      (by decide) (by decide)
  exact ⟨out, r, henc, hdec, hflag, hoff⟩

/-- C8: for every well-formed buffer of at least 20 bytes whose byte 0 has top
nibble 4 (any header-length nibble; bytes past 20 are ignored),
`NewIpv4FromFrame` succeeds, `Flag` and `Offset` are the top 3 and bottom 13
bits of bytes 6-7, and `Encode` of the decoded header returns exactly the first
20 bytes of the buffer. -/
theorem ipv4_decode_encode (frame : Slice) (hwf : frame.WF) (hlen : 20 ≤ frame.len)
    (hver : frame.byte 0 / 16 = 4) :
    ∃ r out, NewIpv4FromFrame frame = .ok (r, none) ∧
      r.Flag = (frame.byte 6 * 256 + frame.byte 7) / 8192 ∧
      r.Offset = (frame.byte 6 * 256 + frame.byte 7) % 8192 ∧
      r.Encode = .ok out ∧ out.len = 20 ∧ out.toList = frame.toList.take 20 := by
  obtain ⟨arr, len⟩ := frame
  obtain ⟨hle, hb⟩ := hwf
  simp only at hle hb hlen
  obtain ⟨k, rfl⟩ : ∃ k, len = k + 20 := ⟨len - 20, by omega⟩
  obtain ⟨b0, b1, b2, b3, b4, b5, b6, b7, b8, b9, b10, b11, b12, b13, b14, b15, b16, b17,
    b18, b19, t, rfl⟩ := exists_prefix20 arr (by omega)
  simp only [Slice.byte, List.getD_cons_zero] at hver
  have h0 : b0 < 256 := hb b0 (by simp)
  have h1 : b1 < 256 := hb b1 (by simp)
  have h2 : b2 < 256 := hb b2 (by simp)
  have h3 : b3 < 256 := hb b3 (by simp)
  have h4 : b4 < 256 := hb b4 (by simp)
  have h5 : b5 < 256 := hb b5 (by simp)
  have h6 : b6 < 256 := hb b6 (by simp)
  have h7 : b7 < 256 := hb b7 (by simp)
  have h8 : b8 < 256 := hb b8 (by simp)
  have h9 : b9 < 256 := hb b9 (by simp)
  have h10 : b10 < 256 := hb b10 (by simp)
  have h11 : b11 < 256 := hb b11 (by simp)
  have hb0 : (64 ||| b0 % 16) % 256 = b0 := by
    have h : 64 ||| b0 % 16 = 64 + b0 % 16 := by
      simpa using shiftLeft_or 4 (b0 % 16) 4 (by norm_num; omega)
    rw [h]; omega
  have hf : (((b6 * 256 + b7) / 8192) <<< 13 % 65536 ||| (b6 * 256 + b7) % 8192) % 65536
      = b6 * 256 + b7 := by
    have h := shl_or_trunc ((b6 * 256 + b7) / 8192) ((b6 * 256 + b7) % 8192) 13 16
      (by norm_num; omega) (by norm_num; omega)
    norm_num at h
    rw [h]; omega
  simp [Ipv4.Encode, NewIpv4FromFrame, NewIpv4, Ipv4.Decode, Ipv4.IsIP4, IPV4_LEN, IPV4_VER,
    PutUint16, Slice.make, Slice.slice, Slice.sliceTo, Slice.setIndex, Slice.copyInto,
    Slice.cap, Slice.toList, Slice.byte, Uint16, Slice.index, replicate32, List.getD, hver,
    hb0, hf, be16 _ _ h2 h3, be16 _ _ h4 h5, be16 _ _ h6 h7, be16 _ _ h10 h11,
    be16_hi _ _ h2 h3, be16_hi _ _ h4 h5, be16_hi _ _ h6 h7, be16_hi _ _ h10 h11,
    be16_lo _ _ h3, be16_lo _ _ h5, be16_lo _ _ h7, be16_lo _ _ h11,
    and_0f, and_1fff, Nat.shiftRight_eq_div_pow]

/-- Bytes 6-7 = `20 00` decode to `Flag = 1`, `Offset = 0`, and the header is
encoded back to the same 20 bytes, `20 00` at offsets 6-7. -/
theorem ipv4_decode_encode_witness :
    ∃ r out, NewIpv4FromFrame (Slice.ofList
        [0x45, 0, 0, 20, 0, 1, 0x20, 0x00, 64, 6, 0, 0, 10, 0, 0, 1, 10, 0, 0, 2, 0xde, 0xad])
        = .ok (r, none) ∧
      r.Flag = (0x20 * 256 + 0x00) / 8192 ∧ r.Offset = (0x20 * 256 + 0x00) % 8192 ∧
      r.Encode = .ok out ∧ out.len = 20 ∧
      out.toList = [0x45, 0, 0, 20, 0, 1, 0x20, 0x00, 64, 6, 0, 0, 10, 0, 0, 1, 10, 0, 0, 2] :=
  ipv4_decode_encode (Slice.ofList
    [0x45, 0, 0, 20, 0, 1, 0x20, 0x00, 64, 6, 0, 0, 10, 0, 0, 1, 10, 0, 0, 2, 0xde, 0xad])
    (by decide) (by decide) (by decide)

/-! ## VLAN tag -/

/-- C9: for every tag-control `t < 16`, VLAN id `v ≤ 4095` and 16-bit inner
ethertype `e`, `Encode` of `Vlan{Tci: t, Vid: v, Pro: e, Len: 4}` returns four
bytes on which `NewVlanFromFrame` succeeds and returns `Tci = t`, `Vid = v`,
`Pro = e`, `Len = 4`. -/
theorem vlan_encode_decode (t v e : Nat) (ht : t < 16) (hv : v ≤ 4095) (he : e < 65536) :
    ∃ out, Vlan.Encode { Tci := t, Vid := v, Pro := e, Len := 4 } = .ok out ∧
      out.len = 4 ∧
      NewVlanFromFrame out = .ok ({ Tci := t, Vid := v, Pro := e, Len := 4 }, none) := by
  have h1 : (t <<< 12) % 65536 ||| v = t * 4096 + v := by
    have h := shl_or_trunc t v 12 16 (by norm_num; omega) (by norm_num; omega)
    norm_num at h
    exact h
  have h2 : (t * 4096 + v) % 4096 = v := by omega
  have h3 : (t * 4096 + v) / 4096 = t := by omega
  simp [Vlan.Encode, NewVlanFromFrame, Vlan.Decode, PutUint16, Slice.make, Slice.slice,
    Slice.cap, Uint16, Slice.index, replicate16, h1, List.getD, be16_put _ he,
    be16_put (t * 4096 + v) (by omega), and_0fff, Nat.shiftRight_eq_div_pow, h2, h3]

/-- VLAN id 4095 with tag-control 0 decodes back to VLAN id 4095. -/
theorem vlan_encode_decode_witness :
    ∃ out, Vlan.Encode { Tci := 0, Vid := 4095, Pro := 0x0800, Len := 4 } = .ok out ∧
      out.len = 4 ∧
      NewVlanFromFrame out = .ok ({ Tci := 0, Vid := 4095, Pro := 0x0800, Len := 4 }, none) :=
  vlan_encode_decode 0 4095 0x0800 (by decide) (by decide) (by decide)

/-- C10: on every well-formed buffer of at least 4 bytes `Vlan.Decode` succeeds
(on any receiver) with `Vid ≤ 4095`, `Tci ≤ 15`, `(Tci << 12) | Vid` equal to
the big-endian value of bytes 0-1 and `Pro` equal to the big-endian value of
bytes 2-3; `Len` keeps the receiver's value, and `Encode` of the decoded tag
returns the first 4 bytes of the buffer. -/
theorem vlan_decode_fields (n : Vlan) (frame : Slice) (hwf : frame.WF) (hlen : 4 ≤ frame.len) :
    ∃ r, Vlan.Decode n frame = .ok (r, none) ∧ r.Vid ≤ 4095 ∧ r.Tci ≤ 15 ∧
      (r.Tci <<< 12 ||| r.Vid) = frame.byte 0 * 256 + frame.byte 1 ∧
      r.Pro = frame.byte 2 * 256 + frame.byte 3 ∧
      r.Len = n.Len ∧
      ∃ out, r.Encode = .ok out ∧ out.len = 4 ∧ out.toList = frame.toList.take 4 := by
  obtain ⟨arr, len⟩ := frame
  obtain ⟨hle, hb⟩ := hwf
  simp only at hle hb hlen
  obtain ⟨b0, b1, b2, b3, t, rfl⟩ := exists_prefix4 arr (by omega)
  have h0 : b0 < 256 := hb b0 (by simp)
  have h1 : b1 < 256 := hb b1 (by simp)
  have h2 : b2 < 256 := hb b2 (by simp)
  have h3 : b3 < 256 := hb b3 (by simp)
  have hlen4 : ¬ len < 4 := by omega
  have hj : ((b0 * 256 + b1) / 4096) <<< 12 ||| (b0 * 256 + b1) % 4096 = b0 * 256 + b1 := by
    have h := shiftLeft_or ((b0 * 256 + b1) / 4096) ((b0 * 256 + b1) % 4096) 12
      (Nat.mod_lt _ (by norm_num))
    rw [h]; norm_num; omega
  have hj2 : ((b0 * 256 + b1) / 4096) <<< 12 % 65536 = ((b0 * 256 + b1) / 4096) <<< 12 := by
    apply Nat.mod_eq_of_lt
    rw [Nat.shiftLeft_eq]; norm_num; omega
  simp [Vlan.Decode, Vlan.Encode, PutUint16, Slice.make, Slice.slice, Slice.cap, Slice.toList,
    Slice.byte, Uint16, Slice.index, replicate16, List.getD, hlen4, be16 _ _ h0 h1,
    be16 _ _ h2 h3, and_0fff, Nat.shiftRight_eq_div_pow, hj, hj2, List.take_take,
    Nat.min_eq_left hlen]
  omega

/-- The 6-byte buffer `81 23 08 00 aa bb` decodes to `Tci = 8`, `Vid = 0x123`,
`Pro = 0x0800`, and is encoded back to `81 23 08 00`. -/
theorem vlan_decode_fields_witness :
    ∃ r, Vlan.Decode (NewVlan 0 0) (Slice.ofList [0x81, 0x23, 0x08, 0x00, 0xaa, 0xbb])
        = .ok (r, none) ∧ r.Vid ≤ 4095 ∧ r.Tci ≤ 15 ∧
      (r.Tci <<< 12 ||| r.Vid) = 0x81 * 256 + 0x23 ∧
      r.Pro = 0x08 * 256 + 0x00 ∧
      r.Len = 4 ∧
      ∃ out, r.Encode = .ok out ∧ out.len = 4 ∧ out.toList = [0x81, 0x23, 0x08, 0x00] :=
  vlan_decode_fields (NewVlan 0 0) (Slice.ofList [0x81, 0x23, 0x08, 0x00, 0xaa, 0xbb])
    (by decide) (by decide)

/-! ## VLAN tag: out-of-range id -/

/-- C11 (refuted as stated): `Vlan.Encode` does not mask the VLAN id.  With
`Tci = 0` and `Vid = 4096` the field written at bytes 0-1 is `0x1000`: its top
four bits are 1, not the low four bits of `Tci`. -/
theorem vlan_encode_unmasked :
    ∃ out, Vlan.Encode { Tci := 0, Vid := 4096, Pro := 0, Len := 4 } = .ok out ∧
      out.toList = [0x10, 0x00, 0x00, 0x00] ∧
      (out.byte 0 * 256 + out.byte 1) / 4096 ≠ 0 % 16 :=
  ⟨_, rfl, rfl, by decide⟩

/-- C11 (amended): for every `Vlan` value (16-bit `Vid`) `Encode` returns 4
bytes; in the big-endian field at bytes 0-1 the bottom 12 bits equal
`Vid & 0x0fff` and the top 4 bits equal `(Tci & 0x0f) | (Vid >> 12)`.  When
`Vid ≤ 4095` the top 4 bits are the low 4 bits of `Tci` and the bottom 12 bits
are `Vid`. -/
theorem vlan_encode_field (n : Vlan) (hv : n.Vid < 65536) :
    ∃ out, n.Encode = .ok out ∧ out.len = 4 ∧
      (out.byte 0 * 256 + out.byte 1) % 4096 = n.Vid % 4096 ∧
      (out.byte 0 * 256 + out.byte 1) / 4096 = n.Tci % 16 ||| n.Vid / 4096 ∧
      (n.Vid ≤ 4095 →
        (out.byte 0 * 256 + out.byte 1) / 4096 = n.Tci % 16 ∧
        (out.byte 0 * 256 + out.byte 1) % 4096 = n.Vid) := by
  obtain ⟨tci, vid, pro, len⟩ := n
  simp only at hv
  obtain ⟨v, hvdef⟩ : ∃ v, v = (tci <<< 12) % 65536 ||| vid := ⟨_, rfl⟩
  have hT : (tci <<< 12) % 65536 = tci % 16 * 4096 := by
    rw [Nat.shiftLeft_eq]; norm_num; omega
  have hlt : v < 65536 := by
    rw [hvdef]
    exact Nat.or_lt_two_pow (n := 16) (Nat.mod_lt _ (by norm_num)) hv
  have hmod : v % 4096 = vid % 4096 := by
    have h := or_mod_two_pow (tci % 16 * 4096) vid 12
    rw [show (2 : Nat) ^ 12 = 4096 from rfl] at h
    rw [hvdef, hT, h, Nat.mul_mod_left, Nat.zero_or]
  have hdiv : v / 4096 = tci % 16 ||| vid / 4096 := by
    have h := or_div_two_pow (tci % 16 * 4096) vid 12
    rw [show (2 : Nat) ^ 12 = 4096 from rfl] at h
    rw [hvdef, hT, h, Nat.mul_div_cancel _ (by norm_num)]
  have hfield : v / 256 % 256 * 256 + v % 256 = v := by omega
  refine ⟨⟨[v / 256 % 256, v % 256, pro / 256 % 256, pro % 256] ++ List.replicate 12 0, 4⟩,
    ?_, rfl, ?_, ?_, ?_⟩
  · simp [Vlan.Encode, PutUint16, Slice.make, Slice.slice, Slice.cap, replicate16,
      Nat.shiftRight_eq_div_pow, ← hvdef, -List.reduceReplicate]
  · show (v / 256 % 256 * 256 + v % 256) % 4096 = vid % 4096
    rw [hfield, hmod]
  · show (v / 256 % 256 * 256 + v % 256) / 4096 = tci % 16 ||| vid / 4096
    rw [hfield, hdiv]
  · intro hsmall
    have hsmall' : vid ≤ 4095 := hsmall
    have z : vid / 4096 = 0 := by omega
    have y : vid % 4096 = vid := by omega
    show (v / 256 % 256 * 256 + v % 256) / 4096 = tci % 16 ∧
      (v / 256 % 256 * 256 + v % 256) % 4096 = vid
    rw [hfield, hdiv, hmod, z, Nat.or_zero, y]
    exact ⟨rfl, rfl⟩

/-- The tag `Tci = 5`, `Vid = 0x123` is written with top four bits 5 and bottom
twelve bits `0x123`. -/
theorem vlan_encode_field_witness :
    ∃ out, Vlan.Encode { Tci := 5, Vid := 0x123, Pro := 0x0800, Len := 4 } = .ok out ∧
      (out.byte 0 * 256 + out.byte 1) / 4096 = 5 ∧
      (out.byte 0 * 256 + out.byte 1) % 4096 = 0x123 := by
  obtain ⟨out, h1, -, -, -, h2⟩ :=
    vlan_encode_field { Tci := 5, Vid := 0x123, Pro := 0x0800, Len := 4 } (by decide)
  exact ⟨out, h1, h2 (by decide)⟩

/-! ## Ethernet -/

/-- C12: for every `Ether` value with 6-byte `Dst`, 6-byte `Src`, any 16-bit
`Type` and `Len = 14`, `Encode` returns 14 bytes on which `NewEtherFromFrame`
succeeds and returns `Dst`, `Src` (as byte sequences), `Type` and `Len` equal
to those of the value. -/
theorem ether_encode_decode (f : Ether) (hd : f.Dst.WF) (hdl : f.Dst.len = 6)
    (hs : f.Src.WF) (hsl : f.Src.len = 6) (hty : f.EthType < 65536) (hlen : f.Len = 14) :
    ∃ out r, f.Encode = .ok out ∧ out.len = 14 ∧ NewEtherFromFrame out = .ok (r, none) ∧
      r.Dst.len = 6 ∧ r.Dst.toList = f.Dst.toList ∧
      r.Src.len = 6 ∧ r.Src.toList = f.Src.toList ∧
      r.EthType = f.EthType ∧ r.Len = f.Len := by
  obtain ⟨⟨darr, dlen⟩, ⟨sarr, slen⟩, ty, ln⟩ := f
  obtain ⟨hd1, hdb⟩ := hd
  obtain ⟨hs1, hsb⟩ := hs
  simp only at hdl hsl hty hlen hd1 hs1 hdb hsb
  subst hdl hsl hlen
  obtain ⟨d0, d1, d2, d3, dt, rfl⟩ := exists_prefix4 darr (by omega)
  rcases dt with _ | ⟨d4, _ | ⟨d5, dt⟩⟩
  · simp at hd1
  · simp at hd1
  obtain ⟨s0, s1, s2, s3, st, rfl⟩ := exists_prefix4 sarr (by omega)
  rcases st with _ | ⟨s4, _ | ⟨s5, st⟩⟩
  · simp at hs1
  · simp at hs1
  simp [Ether.Encode, NewEtherFromFrame, Ether.Decode, Slice.copyInto, Slice.make, Slice.cap,
    Slice.slice, Slice.toList, PutUint16, Uint16, Slice.index, List.getD,
    Nat.shiftRight_eq_div_pow, be16_put _ hty]

/-- A broadcast IPv4 frame header is encoded and decoded back unchanged. -/
theorem ether_encode_decode_witness :
    ∃ out r,
      Ether.Encode { Dst := BROADED, Src := DEFAULTED, EthType := 0x0800, Len := 14 }
        = .ok out ∧ out.len = 14 ∧ NewEtherFromFrame out = .ok (r, none) ∧
      r.Dst.len = 6 ∧ r.Dst.toList = [0xff, 0xff, 0xff, 0xff, 0xff, 0xff] ∧
      r.Src.len = 6 ∧ r.Src.toList = [0x00, 0x16, 0x3e, 0x02, 0x56, 0x23] ∧
      r.EthType = 0x0800 ∧ r.Len = 14 :=
  ether_encode_decode { Dst := BROADED, Src := DEFAULTED, EthType := 0x0800, Len := 14 }
    (by decide) (by decide) (by decide) (by decide) (by decide) (by decide)

/-- C13: for every `Ether` value whose `Dst` and `Src` are well-formed slices of
any length (nil, shorter or longer than 6) and whose `Type` is 16-bit, `Encode`
returns exactly 14 bytes: the first 6 bytes of `Dst`, zero-filled where `Dst`
is shorter, the same for `Src`, then `Type` big-endian.  For every well-formed
buffer of at least 14 bytes, `Encode` of the decoded frame returns the first 14
bytes of the buffer. -/
theorem ether_encode_layout :
    (∀ e : Ether, e.Dst.WF → e.Src.WF → e.EthType < 65536 →
      ∃ out, e.Encode = .ok out ∧ out.len = 14 ∧
        out.toList = (e.Dst.toList.take 6 ++ List.replicate (6 - e.Dst.len) 0) ++
          ((e.Src.toList.take 6 ++ List.replicate (6 - e.Src.len) 0) ++
            [e.EthType / 256, e.EthType % 256])) ∧
    (∀ (e : Ether) (frame : Slice), frame.WF → 14 ≤ frame.len →
      ∃ r out, Ether.Decode e frame = .ok (r, none) ∧ r.Encode = .ok out ∧ out.len = 14 ∧
        out.toList = frame.toList.take 14) := by
  constructor
  · intro e hd hs hty
    obtain ⟨out, h1, h2, -, h3⟩ := Ether.Encode_bytes e hd.1 hs.1
    have : e.EthType / 256 % 256 = e.EthType / 256 := by omega
    rw [this] at h3
    exact ⟨out, h1, h2, h3⟩
  · intro e frame hwf hlen
    obtain ⟨arr, len⟩ := frame
    obtain ⟨hle, hb⟩ := hwf
    simp only at hle hb hlen
    obtain ⟨k, rfl⟩ : ∃ k, len = k + 14 := ⟨len - 14, by omega⟩
    obtain ⟨b0, b1, b2, b3, b4, b5, b6, b7, b8, b9, b10, b11, b12, b13, t, rfl⟩ :=
      exists_prefix14 arr (by omega)
    have h12 : b12 < 256 := hb b12 (by simp)
    have h13 : b13 < 256 := hb b13 (by simp)
    simp [Ether.Encode, Ether.Decode, Slice.copyInto, Slice.make, Slice.cap,
      Slice.slice, Slice.toList, PutUint16, Uint16, Slice.index, List.getD,
      Nat.shiftRight_eq_div_pow, be16 _ _ h12 h13, be16_hi _ _ h12 h13, be16_lo _ _ h13]

/-- A nil `Dst` is written as six zero bytes and a 3-byte `Src` is zero-filled;
a 16-byte buffer is decoded and encoded back to its first 14 bytes. -/
theorem ether_encode_layout_witness :
    (∃ out, Ether.Encode
        { Dst := Slice.nil, Src := Slice.ofList [1, 2, 3], EthType := 0x0806, Len := 14 }
        = .ok out ∧ out.len = 14 ∧
      out.toList = [0, 0, 0, 0, 0, 0, 1, 2, 3, 0, 0, 0, 0x08, 0x06]) ∧
    (∃ r out, Ether.Decode (NewEther 0) (Slice.ofList
        [1, 2, 3, 4, 5, 6, 7, 8, 9, 10, 11, 12, 0x08, 0x00, 0x45, 0x00]) = .ok (r, none) ∧
      r.Encode = .ok out ∧ out.len = 14 ∧
      out.toList = [1, 2, 3, 4, 5, 6, 7, 8, 9, 10, 11, 12, 0x08, 0x00]) :=
  ⟨ether_encode_layout.1
      { Dst := Slice.nil, Src := Slice.ofList [1, 2, 3], EthType := 0x0806, Len := 14 }
      (by decide) (by decide) (by decide),
    ether_encode_layout.2 (NewEther 0) (Slice.ofList
      [1, 2, 3, 4, 5, 6, 7, 8, 9, 10, 11, 12, 0x08, 0x00, 0x45, 0x00])
      (by decide) (by decide)⟩

/-! ## TCP and UDP -/

/-- C14: for every `Tcp` value (fields within their Go types) with `Len = 20`,
`Encode` returns 20 bytes on which `NewTcpFromFrame` succeeds and returns the
same nine wire fields and `Len`; for every `Udp` value with `Len = 8`, `Encode`
returns 8 bytes on which `NewUdpFromFrame` succeeds and returns the value
itself. -/
theorem tcp_udp_encode_decode :
    (∀ t : Tcp, t.Typed → t.Len = 20 →
      ∃ out r, t.Encode = .ok out ∧ out.len = 20 ∧ NewTcpFromFrame out = .ok (r, none) ∧
        r.Source = t.Source ∧ r.Destination = t.Destination ∧ r.Sequence = t.Sequence ∧
        r.Acknowledgment = t.Acknowledgment ∧ r.DataOffset = t.DataOffset ∧
        r.ControlBits = t.ControlBits ∧ r.Window = t.Window ∧ r.Checksum = t.Checksum ∧
        r.UrgentPointer = t.UrgentPointer ∧ r.Len = t.Len) ∧
    (∀ u : Udp, u.Typed → u.Len = 8 →
      ∃ out, u.Encode = .ok out ∧ out.len = 8 ∧ NewUdpFromFrame out = .ok (u, none)) := by
  constructor
  · intro t hty hlen
    obtain ⟨src, dst, seq, ack, doff, cb, win, ck, up, opts, pad, len⟩ := t
    obtain ⟨h1, h2, h3, h4, h5, h6, h7, h8, h9⟩ := hty
    simp only at h1 h2 h3 h4 h5 h6 h7 h8 h9 hlen
    subst hlen
    simp [Tcp.Encode, NewTcpFromFrame, NewTcp, Tcp.Decode, TCP_LEN, PutUint16, PutUint32,
      Slice.make, Slice.slice, Slice.sliceTo, Slice.setIndex, Slice.cap, Uint16, Uint32,
      Slice.index, replicate32, List.getD, Nat.shiftRight_eq_div_pow, be16_put _ h1,
      be16_put _ h2, be16_put _ h7, be16_put _ h8, be16_put _ h9, be32_put _ h3, be32_put _ h4]
  · intro u hty hlen
    obtain ⟨src, dst, length, ck, len⟩ := u
    obtain ⟨h1, h2, h3, h4⟩ := hty
    simp only at h1 h2 h3 h4 hlen
    subst hlen
    simp [Udp.Encode, NewUdpFromFrame, NewUdp, Udp.Decode, UDP_LEN, PutUint16,
      Slice.make, Slice.slice, Slice.sliceTo, Slice.cap, Uint16,
      Slice.index, replicate32, List.getD, Nat.shiftRight_eq_div_pow, be16_put _ h1,
      be16_put _ h2, be16_put _ h3, be16_put _ h4]

/-- A TCP header with 32-bit sequence numbers and a UDP header survive the round
trip. -/
theorem tcp_udp_encode_decode_witness :
    (∃ out r,
      Tcp.Encode
        { NewTcp with
          Source := 443, Destination := 51000, Sequence := 0x01020304,
          Acknowledgment := 0xfffefdfc, DataOffset := 0x50, ControlBits := 0x12,
          Window := 0x1234 } = .ok out ∧
      NewTcpFromFrame out = .ok (r, none) ∧ r.Sequence = 0x01020304 ∧
      r.Acknowledgment = 0xfffefdfc ∧ r.Window = 0x1234) ∧
    (∃ out, Udp.Encode { Source := 53, Destination := 5353, Length := 8, Checksum := 7, Len := 8 }
        = .ok out ∧ out.len = 8 ∧
      NewUdpFromFrame out =
        .ok ({ Source := 53, Destination := 5353, Length := 8, Checksum := 7, Len := 8 }, none)) := by
  constructor
  · obtain ⟨out, r, h1, -, h2, -, -, h3, h4, -, -, h5, -⟩ := tcp_udp_encode_decode.1
      { NewTcp with
        Source := 443, Destination := 51000, Sequence := 0x01020304,
        Acknowledgment := 0xfffefdfc, DataOffset := 0x50, ControlBits := 0x12,
        Window := 0x1234 } (by decide) (by decide)
    exact ⟨out, r, h1, h2, h3, h4, h5⟩
  · exact tcp_udp_encode_decode.2
      { Source := 53, Destination := 5353, Length := 8, Checksum := 7, Len := 8 }
      (by decide) (by decide)

/-! ## Classification -/

/-- C15: for every ethertype `t` and every well-formed frame of at least 14
bytes whose bytes 12-13 hold `t` big-endian (such a `t` is 16-bit), the decoded
`Ether` has `Type = t`; `IsVlan` holds iff `t = 0x8100`, `IsArp` iff
`t = 0x0806`, `IsIP4` iff `t = 0x0800`, and no two of the three hold together. -/
theorem ether_classify (e : Ether) (frame : Slice) (t : Nat) (hwf : frame.WF)
    (hlen : 14 ≤ frame.len)
    (h12 : frame.byte 12 = t / 256) (h13 : frame.byte 13 = t % 256) :
    ∃ r, Ether.Decode e frame = .ok (r, none) ∧ r.EthType = t ∧
      (r.IsVlan = true ↔ t = 0x8100) ∧ (r.IsArp = true ↔ t = 0x0806) ∧
      (r.IsIP4 = true ↔ t = 0x0800) ∧
      ¬ (r.IsVlan = true ∧ r.IsArp = true) ∧ ¬ (r.IsVlan = true ∧ r.IsIP4 = true) ∧
      ¬ (r.IsArp = true ∧ r.IsIP4 = true) := by
  obtain ⟨arr, len⟩ := frame
  obtain ⟨hle, hb⟩ := hwf
  simp only at hle hb hlen
  obtain ⟨b0, b1, b2, b3, b4, b5, b6, b7, b8, b9, b10, b11, b12, b13, tl, rfl⟩ :=
    exists_prefix14 arr (by omega)
  simp only [Slice.byte, List.getD_cons_succ, List.getD_cons_zero] at h12 h13
  have hb12 : b12 < 256 := hb b12 (by simp)
  have hb13 : b13 < 256 := hb b13 (by simp)
  have hlen14 : ¬ len < 14 := by omega
  have ht' : b12 * 256 + b13 = t := by omega
  simp [Ether.Decode, Ether.IsVlan, Ether.IsArp, Ether.IsIP4, ETHPVLAN, ETHPARP, ETHPIP4,
    Slice.slice, Slice.cap, Uint16, Slice.index, List.getD, hlen14, be16 _ _ hb12 hb13, ht']
  omega

/-- Fourteen zero bytes with bytes 12-13 = `08 00` decode to `Type = 0x0800`,
`IsIP4` true and `IsArp` false. -/
theorem ether_classify_witness :
    ∃ r, Ether.Decode (NewEther 0)
        (Slice.ofList [0, 0, 0, 0, 0, 0, 0, 0, 0, 0, 0, 0, 0x08, 0x00]) = .ok (r, none) ∧
      r.EthType = 0x0800 ∧ r.IsIP4 = true ∧ r.IsArp = false := by
  obtain ⟨r, h1, h2, -, harp, hip, -⟩ := ether_classify (NewEther 0)
    (Slice.ofList [0, 0, 0, 0, 0, 0, 0, 0, 0, 0, 0, 0, 0x08, 0x00]) 0x0800
    (by decide) (by decide) (by decide) (by decide)
  refine ⟨r, h1, h2, hip.mpr rfl, ?_⟩
  cases h : r.IsArp with
  | false => rfl
  | true => exact absurd (harp.mp h) (by decide)

/-! ## Protocol names -/

/-- C16: `IpProto2Str` is total on 8-bit inputs.  It maps 0x01, 0x02, 0x04,
0x06, 0x11, 0x32, 0x33, 0x59, 0x67, 0x70, 0x7c to icmp, igmp, ipip, tcp, udp,
esp, ah, ospf, pim, vrrp, isis, and every other 8-bit value to exactly the two
lowercase hexadecimal digits of that value, zero-padded; distinct 8-bit
protocol numbers yield distinct strings. -/
theorem IpProto2Str_spec :
    (IpProto2Str 0x01 = "icmp" ∧ IpProto2Str 0x02 = "igmp" ∧ IpProto2Str 0x04 = "ipip" ∧
      IpProto2Str 0x06 = "tcp" ∧ IpProto2Str 0x11 = "udp" ∧ IpProto2Str 0x32 = "esp" ∧
      IpProto2Str 0x33 = "ah" ∧ IpProto2Str 0x59 = "ospf" ∧ IpProto2Str 0x67 = "pim" ∧
      IpProto2Str 0x70 = "vrrp" ∧ IpProto2Str 0x7c = "isis") ∧
    (∀ p, p < 256 →
      p ∉ [0x01, 0x02, 0x04, 0x06, 0x11, 0x32, 0x33, 0x59, 0x67, 0x70, 0x7c] →
      IpProto2Str p = String.mk ["0123456789abcdef".toList.getD (p / 16) '?',
        "0123456789abcdef".toList.getD (p % 16) '?']) ∧
    (∀ p q, p < 256 → q < 256 → IpProto2Str p = IpProto2Str q → p = q) := by
  refine ⟨by decide, IpProto2Str_hex, ?_⟩
  intro p q hp hq h
  by_cases hpn : p ∈ [0x01, 0x02, 0x04, 0x06, 0x11, 0x32, 0x33, 0x59, 0x67, 0x70, 0x7c]
  · exact IpProto2Str_named_inj p hpn q hq h
  · by_cases hqn : q ∈ [0x01, 0x02, 0x04, 0x06, 0x11, 0x32, 0x33, 0x59, 0x67, 0x70, 0x7c]
    · exact (IpProto2Str_named_inj q hqn p hp h.symm).symm
    · rw [IpProto2Str_hex p hp hpn, IpProto2Str_hex q hq hqn] at h
      injection h with h
      injection h with h1 h
      injection h with h2 h
      have e1 := hexChar_inj _ (by omega) _ (by omega) h1
      have e2 := hexChar_inj _ (by omega) _ (by omega) h2
      omega

/-- The protocol number 0xab is not named and is shown as its two hexadecimal
digits. -/
theorem IpProto2Str_spec_witness : IpProto2Str 0xab = "ab" ∧ IpProto2Str 0x0b = "0b" := by
  have h := IpProto2Str_spec.2.1
  exact ⟨h 0xab (by decide) (by decide), h 0x0b (by decide) (by decide)⟩

/-! ## Default-constructed headers -/

/-- C17 (the code departs from the claim): `NewArp()` and `NewIpv4()` leave
their addresses nil, so `Encode` of the freshly constructed value slices a nil
address (`a.SHwAddr[0:6]`, `i.Source[:4]`) and panics. -/
theorem default_encode_panics :
    Arp.Encode NewArp = Run.panic ∧ Ipv4.Encode NewIpv4 = Run.panic := by
  decide

/-- The other four constructors give values that `Encode` accepts: `NewEther(t)`
(whose addresses are `ZEROED`), `NewVlan(tci, vid)`, `NewTcp()` and `NewUdp()`
are encoded to 14, 4, 20 and 8 bytes. -/
theorem default_encode_returns (t tci vid : Nat) :
    (∃ out, (NewEther t).Encode = .ok out ∧ out.len = 14) ∧
    (∃ out, (NewVlan tci vid).Encode = .ok out ∧ out.len = 4) ∧
    (∃ out, NewTcp.Encode = .ok out ∧ out.len = 20) ∧
    (∃ out, NewUdp.Encode = .ok out ∧ out.len = 8) := by
  refine ⟨?_, ?_, ⟨_, rfl, rfl⟩, ⟨_, rfl, rfl⟩⟩
  · simp [Ether.Encode, NewEther, ZEROED, Slice.ofList, Slice.copyInto, Slice.make, Slice.cap,
      Slice.slice, PutUint16]
  · simp [Vlan.Encode, NewVlan, Slice.make, Slice.cap, Slice.slice, PutUint16]

/-! ## Receiver state after `Decode` -/

/-- C18 (refuted as stated): `Ipv4.Decode` on a 20-byte buffer of version 6
returns an error and has overwritten `Version` and `ToL` of the receiver;
`Arp.Decode` on a 10-byte buffer announcing `h = 8`, `p = 16` returns its second
length error and has overwritten `HrdCode`, `ProCode`, `HrdLen`, `ProLen` and
`OpCode` of the receiver. -/
theorem decode_error_changes_receiver :
    (∃ r err, Ipv4.Decode NewIpv4 (Slice.ofList
        [0x60, 0, 0, 20, 0, 1, 0x40, 0x64, 64, 6, 0, 0, 10, 0, 0, 1, 10, 0, 0, 2])
        = .ok (r, some err) ∧
      r.Version = 6 ∧ r.Version ≠ NewIpv4.Version ∧ r.ToL ≠ NewIpv4.ToL) ∧
    (∃ r err, Arp.Decode NewArp (Slice.ofList [0, 2, 0x86, 0xdd, 8, 16, 0, 2, 0xaa, 0xbb])
        = .ok (r, some err) ∧
      r.HrdCode = 2 ∧ r.ProCode = 0x86dd ∧ r.HrdLen = 8 ∧ r.ProLen = 16 ∧ r.OpCode = 2 ∧
      r.HrdCode ≠ NewArp.HrdCode ∧ r.ProCode ≠ NewArp.ProCode ∧ r.HrdLen ≠ NewArp.HrdLen ∧
      r.ProLen ≠ NewArp.ProLen ∧ r.OpCode ≠ NewArp.OpCode) :=
  ⟨⟨_, _, rfl, rfl, by decide, by decide⟩,
    ⟨_, _, rfl, rfl, rfl, rfl, rfl, rfl, by decide, by decide, by decide, by decide,
      by decide⟩⟩

/-- C18 (amended): whenever `Decode` of Ether, Vlan, Tcp or Udp returns an error
the receiver is as before the call.  Whenever `Arp.Decode` returns an error,
`SHwAddr`, `SIpAddr`, `THwAddr`, `TIpAddr` and `Len` are as before; the whole
receiver is when the buffer has fewer than 8 bytes, and on a well-formed buffer
of at least 8 bytes `HrdCode`, `ProCode`, `HrdLen`, `ProLen` and `OpCode` hold
the values read from bytes 0-7.  Whenever `Ipv4.Decode` returns an error,
`Source`, `Destination`, `Options` and `Len` are as before; the whole receiver
is when the buffer has fewer than 20 bytes, and on a well-formed buffer of at
least 20 bytes the version nibble is not 4 and `Version`, `HeaderLen`, `ToS`,
`TotalLen`, `Identifier`, `Flag`, `Offset`, `ToL`, `Protocol` and
`HeaderChecksum` hold the values read from bytes 0-11.  Both later errors
occur: `Arp.Decode` returns an error on every well-formed buffer of at least 8
bytes that is shorter than the 8-bit bound `p+2*(a.HrdLen+a.ProLen)`, and
`Ipv4.Decode` on every well-formed buffer of at least 20 bytes whose version
nibble is not 4. -/
theorem decode_error_frame :
    (∀ (e r : Ether) (frame : Slice) (err : GoError),
      Ether.Decode e frame = .ok (r, some err) → r = e) ∧
    (∀ (n r : Vlan) (frame : Slice) (err : GoError),
      Vlan.Decode n frame = .ok (r, some err) → r = n) ∧
    (∀ (t r : Tcp) (frame : Slice) (err : GoError),
      Tcp.Decode t frame = .ok (r, some err) → r = t) ∧
    (∀ (u r : Udp) (frame : Slice) (err : GoError),
      Udp.Decode u frame = .ok (r, some err) → r = u) ∧
    (∀ (a r : Arp) (frame : Slice) (err : GoError),
      Arp.Decode a frame = .ok (r, some err) →
        r.SHwAddr = a.SHwAddr ∧ r.SIpAddr = a.SIpAddr ∧ r.THwAddr = a.THwAddr ∧
        r.TIpAddr = a.TIpAddr ∧ r.Len = a.Len ∧ (frame.len < 8 → r = a) ∧
        (frame.WF → 8 ≤ frame.len →
          r.HrdCode = frame.byte 0 * 256 + frame.byte 1 ∧
          r.ProCode = frame.byte 2 * 256 + frame.byte 3 ∧
          r.HrdLen = frame.byte 4 ∧ r.ProLen = frame.byte 5 ∧
          r.OpCode = frame.byte 6 * 256 + frame.byte 7)) ∧
    (∀ (i r : Ipv4) (frame : Slice) (err : GoError),
      Ipv4.Decode i frame = .ok (r, some err) →
        r.Source = i.Source ∧ r.Destination = i.Destination ∧ r.Options = i.Options ∧
        r.Len = i.Len ∧ (frame.len < 20 → r = i) ∧
        (frame.WF → 20 ≤ frame.len →
          r.Version = frame.byte 0 / 16 ∧ r.HeaderLen = frame.byte 0 % 16 ∧
          r.ToS = frame.byte 1 ∧ r.TotalLen = frame.byte 2 * 256 + frame.byte 3 ∧
          r.Identifier = frame.byte 4 * 256 + frame.byte 5 ∧
          r.Flag = (frame.byte 6 * 256 + frame.byte 7) / 8192 ∧
          r.Offset = (frame.byte 6 * 256 + frame.byte 7) % 8192 ∧
          r.ToL = frame.byte 8 ∧ r.Protocol = frame.byte 9 ∧
          r.HeaderChecksum = frame.byte 10 * 256 + frame.byte 11 ∧
          frame.byte 0 / 16 ≠ 4)) ∧
    (∀ (a : Arp) (frame : Slice), frame.WF → 8 ≤ frame.len →
      frame.len < (8 + (2 * ((frame.byte 4 + frame.byte 5) % 256)) % 256) % 256 →
      ∃ r err, Arp.Decode a frame = .ok (r, some err)) ∧
    (∀ (i : Ipv4) (frame : Slice), frame.WF → 20 ≤ frame.len → frame.byte 0 / 16 ≠ 4 →
      ∃ r err, Ipv4.Decode i frame = .ok (r, some err)) := by
  refine ⟨?_, ?_, ?_, ?_, ?_, ?_, arp_second_error, ipv4_second_error⟩
  · intro e r frame err h
    by_cases hs : frame.len < 14
    · rw [Ether.Decode, if_pos hs] at h
      injection h with h; injection h with h; exact h.symm
    · simp [Ether.Decode, hs, Run.bind_eq_ok] at h
  · intro n r frame err h
    by_cases hs : frame.len < 4
    · rw [Vlan.Decode, if_pos hs] at h
      injection h with h; injection h with h; exact h.symm
    · simp [Vlan.Decode, hs, Run.bind_eq_ok] at h
  · intro t r frame err h
    by_cases hs : frame.len < 20
    · rw [Tcp.Decode, if_pos (show frame.len < TCP_LEN from hs)] at h
      injection h with h; injection h with h; exact h.symm
    · simp [Tcp.Decode, TCP_LEN, hs, Run.bind_eq_ok] at h
  · intro u r frame err h
    by_cases hs : frame.len < 8
    · rw [Udp.Decode, if_pos (show frame.len < UDP_LEN from hs)] at h
      injection h with h; injection h with h; exact h.symm
    · simp [Udp.Decode, UDP_LEN, hs, Run.bind_eq_ok] at h
  · intro a r frame err h
    have hf := fun hwf h8 => arp_error_fields a r frame err hwf h8 h
    by_cases hs : frame.len < 8
    · rw [Arp.Decode, if_pos hs] at h
      injection h with h; injection h with h
      subst h
      exact ⟨rfl, rfl, rfl, rfl, rfl, fun _ => rfl, hf⟩
    · simp only [Arp.Decode, if_neg hs, Run.bind_eq_ok, Run.pure_eq] at h
      obtain ⟨_, -, _, -, _, -, _, -, _, -, h⟩ := h
      split_ifs at h with hc
      · injection h with h; injection h with h
        subst h
        exact ⟨rfl, rfl, rfl, rfl, rfl, fun hl => absurd hl hs, hf⟩
      · simp [Run.bind_eq_ok] at h
  · intro i r frame err h
    have hf := fun hwf h20 => ipv4_error_fields i r frame err hwf h20 h
    by_cases hs : frame.len < 20
    · rw [Ipv4.Decode, if_pos (show frame.len < IPV4_LEN from hs)] at h
      injection h with h; injection h with h
      subst h
      exact ⟨rfl, rfl, rfl, rfl, fun _ => rfl, hf⟩
    · simp only [Ipv4.Decode, if_neg (show ¬ frame.len < IPV4_LEN from hs), Run.bind_eq_ok,
        Run.pure_eq] at h
      obtain ⟨_, -, _, -, _, -, _, -, _, -, _, -, _, -, _, -, h⟩ := h
      split_ifs at h with hc
      · injection h with h; injection h with h
        subst h
        exact ⟨rfl, rfl, rfl, rfl, fun hl => absurd hl hs, hf⟩
      · simp [Run.bind_eq_ok] at h

/-- A 7-byte buffer leaves a `Udp` receiver untouched.  The version error of
`Ipv4.Decode` leaves version 6, time to live 64 and protocol 6 in the receiver
and `Source`, `Destination`, `Options` and `Len` untouched.  A 10-byte buffer
announcing `h = 8`, `p = 16` makes `Arp.Decode` return its second length error,
with the five header fields of the buffer in the receiver and the addresses and
`Len` untouched. -/
theorem decode_error_frame_witness :
    (∃ r err, Udp.Decode { Source := 1, Destination := 2, Length := 3, Checksum := 4, Len := 8 }
        (Slice.make 7) = .ok (r, some err) ∧
      r = { Source := 1, Destination := 2, Length := 3, Checksum := 4, Len := 8 }) ∧
    (∃ r err, Ipv4.Decode NewIpv4 (Slice.ofList
        [0x60, 0, 0, 20, 0, 1, 0x40, 0x64, 64, 6, 0, 0, 10, 0, 0, 1, 10, 0, 0, 2])
        = .ok (r, some err) ∧
      r.Source = NewIpv4.Source ∧ r.Destination = NewIpv4.Destination ∧
      r.Options = NewIpv4.Options ∧ r.Len = NewIpv4.Len ∧
      r.Version = 6 ∧ r.ToL = 64 ∧ r.Protocol = 6) ∧
    (∃ r err, Arp.Decode NewArp (Slice.ofList [0, 2, 0x86, 0xdd, 8, 16, 0, 2, 0xaa, 0xbb])
        = .ok (r, some err) ∧
      r.SHwAddr = NewArp.SHwAddr ∧ r.SIpAddr = NewArp.SIpAddr ∧
      r.THwAddr = NewArp.THwAddr ∧ r.TIpAddr = NewArp.TIpAddr ∧ r.Len = NewArp.Len ∧
      r.HrdCode = 2 ∧ r.ProCode = 0x86dd ∧ r.HrdLen = 8 ∧ r.ProLen = 16 ∧ r.OpCode = 2) := by
  refine ⟨?_, ?_, ?_⟩
  · have hdec : ∃ r err,
        Udp.Decode { Source := 1, Destination := 2, Length := 3, Checksum := 4, Len := 8 }
          (Slice.make 7) = .ok (r, some err) := ⟨_, _, rfl⟩
    obtain ⟨r, err, hdec⟩ := hdec
    exact ⟨r, err, hdec, decode_error_frame.2.2.2.1 _ r _ err hdec⟩
  · obtain ⟨r, err, hdec⟩ := decode_error_frame.2.2.2.2.2.2.2 NewIpv4 (Slice.ofList
      [0x60, 0, 0, 20, 0, 1, 0x40, 0x64, 64, 6, 0, 0, 10, 0, 0, 1, 10, 0, 0, 2])
      (by decide) (by decide) (by decide)
    obtain ⟨h1, h2, h3, h4, -, hf⟩ := decode_error_frame.2.2.2.2.2.1 NewIpv4 r _ err hdec
    obtain ⟨f1, -, -, -, -, -, -, f2, f3, -⟩ := hf (by decide) (by decide)
    exact ⟨r, err, hdec, h1, h2, h3, h4, f1, f2, f3⟩
  · obtain ⟨r, err, hdec⟩ := decode_error_frame.2.2.2.2.2.2.1 NewArp
      (Slice.ofList [0, 2, 0x86, 0xdd, 8, 16, 0, 2, 0xaa, 0xbb]) (by decide) (by decide) (by decide)
    obtain ⟨h1, h2, h3, h4, h5, -, hf⟩ := decode_error_frame.2.2.2.2.1 NewArp r _ err hdec
    obtain ⟨f1, f2, f3, f4, f5⟩ := hf (by decide) (by decide)
    exact ⟨r, err, hdec, h1, h2, h3, h4, h5, f1, f2, f3, f4, f5⟩

/-- C19: for every well-formed buffer of at least 20 bytes whose version nibble
`b[0] >> 4` is not 4, `Ipv4.Decode` returns an error after having set
`Version`, `HeaderLen`, `ToS`, `TotalLen`, `Identifier`, `Flag`, `Offset`, `ToL`,
`Protocol` and `HeaderChecksum` of the receiver from the buffer, while `Source`,
`Destination`, `Options` and `Len` of the receiver are unchanged. -/
theorem ipv4_decode_wrong_version (i : Ipv4) (frame : Slice) (hwf : frame.WF)
    (hlen : 20 ≤ frame.len) (hv : frame.byte 0 / 16 ≠ 4) :
    ∃ r err, Ipv4.Decode i frame = .ok (r, some err) ∧
      r.Version = frame.byte 0 / 16 ∧ r.HeaderLen = frame.byte 0 % 16 ∧
      r.ToS = frame.byte 1 ∧ r.TotalLen = frame.byte 2 * 256 + frame.byte 3 ∧
      r.Identifier = frame.byte 4 * 256 + frame.byte 5 ∧
      r.Flag = (frame.byte 6 * 256 + frame.byte 7) / 8192 ∧
      r.Offset = (frame.byte 6 * 256 + frame.byte 7) % 8192 ∧
      r.ToL = frame.byte 8 ∧ r.Protocol = frame.byte 9 ∧
      r.HeaderChecksum = frame.byte 10 * 256 + frame.byte 11 ∧
      r.Source = i.Source ∧ r.Destination = i.Destination ∧ r.Options = i.Options ∧
      r.Len = i.Len := by
  obtain ⟨arr, len⟩ := frame
  obtain ⟨hle, hb⟩ := hwf
  simp only at hle hb hlen
  obtain ⟨b0, b1, b2, b3, b4, b5, b6, b7, b8, b9, b10, b11, b12, b13, b14, b15, b16, b17,
    b18, b19, t, rfl⟩ := exists_prefix20 arr (by omega)
  simp only [Slice.byte, List.getD_cons_zero] at hv
  have h2 : b2 < 256 := hb b2 (by simp)
  have h3 : b3 < 256 := hb b3 (by simp)
  have h4 : b4 < 256 := hb b4 (by simp)
  have h5 : b5 < 256 := hb b5 (by simp)
  have h6 : b6 < 256 := hb b6 (by simp)
  have h7 : b7 < 256 := hb b7 (by simp)
  have h10 : b10 < 256 := hb b10 (by simp)
  have h11 : b11 < 256 := hb b11 (by simp)
  have hs : ¬ len < 20 := by omega
  have hl0 : 0 < len := by omega
  have hl1 : 1 < len := by omega
  have hl8 : 8 < len := by omega
  have hl9 : 9 < len := by omega
  simp [Ipv4.Decode, Ipv4.IsIP4, IPV4_LEN, IPV4_VER, Slice.slice, Slice.cap,
    Slice.byte, Uint16, Slice.index, List.getD, be16 _ _ h2 h3, be16 _ _ h4 h5,
    be16 _ _ h6 h7, be16 _ _ h10 h11, and_0f, and_1fff, Nat.shiftRight_eq_div_pow, hv, hs,
    hl0, hl1, hl8, hl9]

/-- A 20-byte header of version 6 is rejected; the receiver holds version 6,
header length 0, time to live 64 and protocol 6 from the buffer, and keeps its
nil addresses and `Len = 20`. -/
theorem ipv4_decode_wrong_version_witness :
    ∃ r err, Ipv4.Decode NewIpv4 (Slice.ofList
        [0x60, 0, 0, 20, 0, 1, 0x40, 0x64, 64, 6, 0, 0, 10, 0, 0, 1, 10, 0, 0, 2]) = .ok (r, some err) ∧
      r.Version = 6 ∧ r.HeaderLen = 0 ∧ r.ToL = 64 ∧ r.Protocol = 6 ∧
      r.Source = Slice.nil ∧ r.Destination = Slice.nil ∧ r.Options = 0 ∧ r.Len = 20 := by
  obtain ⟨r, err, h, h1, h2, -, -, -, -, -, h3, h4, -, h5, h6, h7, h8⟩ :=
    ipv4_decode_wrong_version NewIpv4 (Slice.ofList
      [0x60, 0, 0, 20, 0, 1, 0x40, 0x64, 64, 6, 0, 0, 10, 0, 0, 1, 10, 0, 0, 2])
      (by decide) (by decide) (by decide)
  exact ⟨r, err, h, h1, h2, h3, h4, h5, h6, h7, h8⟩

/-- C20 (refuted as stated): `Ipv4.Decode` on a receiver whose `Len` is 0
succeeds and leaves `Len = 0`, not 20, and `Encode` of the decoded header
returns no bytes. -/
theorem decode_keeps_wrong_len :
    ∃ r out, Ipv4.Decode { NewIpv4 with Len := 0 } (Slice.ofList
        [0x45, 0, 0, 20, 0, 1, 0x40, 0x64, 64, 6, 0, 0, 10, 0, 0, 1, 10, 0, 0, 2]) = .ok (r, none) ∧
      r.Len = 0 ∧ r.Encode = .ok out ∧ out.len = 0 :=
  ⟨_, _, rfl, rfl, rfl, rfl⟩

/-- C20 (amended): after every successful `Ether.Decode`, on any receiver,
`Len = 14` and `Encode` returns 14 bytes.  After every successful `Decode` of
Vlan, Ipv4, Tcp or Udp the header keeps the receiver's `Len`; `Vlan.Encode`
returns 4 bytes in any case, and when the receiver's `Len` was the wire length
(Ipv4 20, Tcp 20, Udp 8) `Encode` of the decoded header returns exactly that
many bytes. -/
theorem decode_keeps_len :
    (∀ (e r : Ether) (frame : Slice), Ether.Decode e frame = .ok (r, none) →
      r.Len = 14 ∧ ∃ out, r.Encode = .ok out ∧ out.len = 14) ∧
    (∀ (n r : Vlan) (frame : Slice), Vlan.Decode n frame = .ok (r, none) →
      r.Len = n.Len ∧ ∃ out, r.Encode = .ok out ∧ out.len = 4) ∧
    (∀ (i r : Ipv4) (frame : Slice), Ipv4.Decode i frame = .ok (r, none) →
      r.Len = i.Len ∧ (i.Len = 20 → ∃ out, r.Encode = .ok out ∧ out.len = 20)) ∧
    (∀ (t r : Tcp) (frame : Slice), Tcp.Decode t frame = .ok (r, none) →
      r.Len = t.Len ∧ (t.Len = 20 → ∃ out, r.Encode = .ok out ∧ out.len = 20)) ∧
    (∀ (u r : Udp) (frame : Slice), Udp.Decode u frame = .ok (r, none) →
      r.Len = u.Len ∧ (u.Len = 8 → ∃ out, r.Encode = .ok out ∧ out.len = 8)) := by
  refine ⟨?_, ?_, ?_, ?_, ?_⟩
  · intro e r frame h
    by_cases hs : frame.len < 14
    · rw [Ether.Decode, if_pos hs] at h
      simp at h
    · simp only [Ether.Decode, if_neg hs, Run.bind_eq_ok, Run.pure_eq] at h
      obtain ⟨dst, hdst, src, hsrc, ty, -, h⟩ := h
      injection h with h; injection h with h
      subst h
      obtain ⟨rfl, -, hd⟩ := Slice.slice_eq_ok _ _ _ _ hdst
      obtain ⟨rfl, -, hs⟩ := Slice.slice_eq_ok _ _ _ _ hsrc
      refine ⟨rfl, ether_encode_len _ ?_ ?_⟩
      · simp only [List.length_drop]; omega
      · simp only [List.length_drop]; omega
  · intro n r frame h
    by_cases hs : frame.len < 4
    · rw [Vlan.Decode, if_pos hs] at h
      simp at h
    · simp only [Vlan.Decode, if_neg hs, Run.bind_eq_ok, Run.pure_eq] at h
      obtain ⟨_, -, _, -, h⟩ := h
      injection h with h; injection h with h
      subst h
      refine ⟨rfl, ?_⟩
      simp [Vlan.Encode, PutUint16, Slice.make, Slice.slice, Slice.cap]
  · intro i r frame h
    by_cases hs : frame.len < 20
    · rw [Ipv4.Decode, if_pos (show frame.len < IPV4_LEN from hs)] at h
      simp at h
    · simp only [Ipv4.Decode, if_neg (show ¬ frame.len < IPV4_LEN from hs), Run.bind_eq_ok,
        Run.pure_eq] at h
      obtain ⟨_, -, _, -, _, -, _, -, _, -, _, -, _, -, _, -, h⟩ := h
      split_ifs at h with hc
      · simp at h
      · simp only [Run.bind_eq_ok, Run.pure_eq] at h
        obtain ⟨source, hsrc, destination, hdst, h⟩ := h
        injection h with h; injection h with h
        subst h
        obtain ⟨rfl, -, hs⟩ := Slice.slice_eq_ok _ _ _ _ hsrc
        obtain ⟨rfl, -, hd⟩ := Slice.slice_eq_ok _ _ _ _ hdst
        refine ⟨rfl, fun hl => ipv4_encode_len _ 20 (by omega) hl ?_ ?_⟩
        · simp only [List.length_drop]; omega
        · simp only [List.length_drop]; omega
  · intro t r frame h
    by_cases hs : frame.len < 20
    · rw [Tcp.Decode, if_pos (show frame.len < TCP_LEN from hs)] at h
      simp at h
    · simp only [Tcp.Decode, if_neg (show ¬ frame.len < TCP_LEN from hs), Run.bind_eq_ok,
        Run.pure_eq] at h
      obtain ⟨_, -, _, -, _, -, _, -, _, -, _, -, _, -, _, -, _, -, h⟩ := h
      injection h with h; injection h with h
      subst h
      exact ⟨rfl, fun hl => tcp_encode_len _ 20 (by omega) hl⟩
  · intro u r frame h
    by_cases hs : frame.len < 8
    · rw [Udp.Decode, if_pos (show frame.len < UDP_LEN from hs)] at h
      simp at h
    · simp only [Udp.Decode, if_neg (show ¬ frame.len < UDP_LEN from hs), Run.bind_eq_ok,
        Run.pure_eq] at h
      obtain ⟨_, -, _, -, _, -, _, -, h⟩ := h
      injection h with h; injection h with h
      subst h
      exact ⟨rfl, fun hl => udp_encode_len _ 8 (by omega) hl⟩

/-- A header decoded into `NewIpv4()` has `Len = 20` and is encoded to 20
bytes. -/
theorem decode_keeps_len_witness :
    ∃ r out, Ipv4.Decode NewIpv4 (Slice.ofList
        [0x45, 0, 0, 20, 0, 1, 0x40, 0x64, 64, 6, 0, 0, 10, 0, 0, 1, 10, 0, 0, 2]) = .ok (r, none) ∧
      r.Len = 20 ∧ r.Encode = .ok out ∧ out.len = 20 := by
  have hdec : ∃ r, Ipv4.Decode NewIpv4 (Slice.ofList
      [0x45, 0, 0, 20, 0, 1, 0x40, 0x64, 64, 6, 0, 0, 10, 0, 0, 1, 10, 0, 0, 2])
        = .ok (r, none) := ⟨_, rfl⟩
  obtain ⟨r, hdec⟩ := hdec
  obtain ⟨h1, h2⟩ := decode_keeps_len.2.2.1 NewIpv4 r _ hdec
  obtain ⟨out, h3, h4⟩ := h2 rfl
  exact ⟨r, out, hdec, h1, h3, h4⟩

end Libol
